import Mathlib

/-!
Verification development for the incremental log-tailing engine
(`pygtail.py`): a shallow embedding of the `Pygtail` class and its helper
functions, together with theorems settling the specification's claims.

Modelling conventions:
* file contents are `List Char` (the text model: one character per byte,
  `'\n'` line terminators); byte offsets are `Nat` character offsets;
* the file system is an association list from path strings to files
  (inode, content, mtime), plus a list of directory paths;
* fallible operations (`stat` on a missing path, a malformed offset file,
  fuel exhaustion of the reading loop) return `Option`;
* `glob.glob` is modelled by matching the pattern against every path in
  the file system (the patterns used by the source contain no `**`);
* Python's `int()` is modelled for an optional sign followed by decimal
  digits; exotic inputs (underscore grouping, unicode digits) are out of
  scope, as are negative persisted offsets, which would make the later
  `seek` raise and which `update_offset_file` can never write.
-/

namespace Spec2Proof

/-- Python `str.isspace`-style whitespace, as stripped by `str.strip()`. -/
def isPyWs (c : Char) : Bool :=
  c.toNat == 32 || c.toNat == 9 || c.toNat == 10 ||
  c.toNat == 13 || c.toNat == 11 || c.toNat == 12

/-- An ASCII decimal digit. -/
def isPyDigit (c : Char) : Bool :=
  48 ≤ c.toNat && c.toNat ≤ 57

/-- `str.strip()`: drop leading and trailing whitespace. -/
def stripList (l : List Char) : List Char :=
  ((l.dropWhile isPyWs).reverse.dropWhile isPyWs).reverse

/-- One `readline()` step: the characters up to and including the first
`'\n'`, or all remaining characters if none occurs. -/
def takeLine : List Char → List Char
  | [] => []
  | c :: cs => if c = '\n' then ['\n'] else c :: takeLine cs

/-- Iterating a Python text file yields `readline()` chunks; fuel-indexed
worker (the fuel is always instantiated with the content length). -/
def pyLinesListAux : Nat → List Char → List (List Char)
  | 0, _ => []
  | _ + 1, [] => []
  | fuel + 1, c :: cs =>
    takeLine (c :: cs) ::
      pyLinesListAux fuel (List.drop (takeLine (c :: cs)).length (c :: cs))

/-- The list of lines of a file's content, as Python file iteration
yields them (each line keeps its terminator; a final unterminated chunk
is also a line). -/
def pyLinesList (l : List Char) : List (List Char) :=
  pyLinesListAux l.length l

/-- The ASCII character of a decimal digit. -/
def digitChar (d : Nat) : Char := Char.ofNat (48 + d)

/-- Decimal digit list of a natural number; fuel-indexed worker. -/
def decDigitsAux : Nat → Nat → List Char
  | 0, _ => []
  | fuel + 1, n =>
    if n < 10 then [digitChar n]
    else decDigitsAux fuel (n / 10) ++ [digitChar (n % 10)]

/-- Decimal digit list of a natural number (`"%s" % n` for `n ≥ 0`). -/
def decDigits (n : Nat) : List Char := decDigitsAux (n + 1) n

/-- Value of a digit string, left fold with accumulator; `none` on a
non-digit character. -/
def pyDigitsVal : Nat → List Char → Option Nat
  | acc, [] => some acc
  | acc, c :: r =>
    if isPyDigit c then pyDigitsVal (10 * acc + (c.toNat - 48)) r else none

/-- Python `int()` on an already-stripped string: optional sign, then at
least one decimal digit. -/
def pyInt : List Char → Option Int
  | [] => none
  | c :: r =>
    if c = '-' then
      if r = [] then none else (pyDigitsVal 0 r).map (fun n => -(n : Int))
    else if c = '+' then
      if r = [] then none else (pyDigitsVal 0 r).map (fun n => (n : Int))
    else (pyDigitsVal 0 (c :: r)).map (fun n => (n : Int))

/-- `"%s" % i` for an `int`. -/
def renderInt (i : Int) : List Char :=
  if i < 0 then '-' :: decDigits (-i).toNat else decDigits i.toNat

/-- The offset-file payload `"%s\n%s\n" % (inode, offset)`, as written by
`update_offset_file` and `write_offset_to_file`. -/
def renderPair (i o : Int) : List Char :=
  renderInt i ++ '\n' :: (renderInt o ++ ['\n'])

/-- Parsing the sidecar offset file, as `Pygtail.__init__` does:
`[int(line.strip()) for line in offset_fh]`, destructured into exactly
two values (`ValueError` on any other count is modelled as `none`). -/
def loadOffsetFileContent (cs : List Char) : Option (Int × Int) :=
  match pyLinesList cs with
  | [l1, l2] => do
    let a ← pyInt (stripList l1)
    let b ← pyInt (stripList l2)
    some (a, b)
  | _ => none

/-- `save(load(content))` at the level of sidecar file content: parse the
two integers, then re-render them the way `write_offset_to_file` does. -/
def saveAfterLoad (cs : List Char) : Option (List Char) :=
  (loadOffsetFileContent cs).map (fun p => renderPair p.1 p.2)

/-! ### Decimal round-trip lemmas -/

theorem decDigitsAux_irrel : ∀ f₁ f₂ n, n < f₁ → n < f₂ →
    decDigitsAux f₁ n = decDigitsAux f₂ n := by
  intro f₁
  induction f₁ with
  | zero => intro f₂ n h; omega
  | succ f ih =>
    intro f₂ n h₁ h₂
    match f₂, h₂ with
    | g + 1, h₂ =>
      show decDigitsAux (f + 1) n = decDigitsAux (g + 1) n
      unfold decDigitsAux
      by_cases hn : n < 10
      · simp [hn]
      · have hd : n / 10 < n := Nat.div_lt_self (by omega) (by omega)
        simp only [hn, if_false]
        rw [ih g (n / 10) (by omega) (by omega)]

theorem decDigits_small {n : Nat} (h : n < 10) : decDigits n = [digitChar n] := by
  unfold decDigits decDigitsAux
  simp [h]

theorem decDigits_big {n : Nat} (h : 10 ≤ n) :
    decDigits n = decDigits (n / 10) ++ [digitChar (n % 10)] := by
  have hd : n / 10 < n := Nat.div_lt_self (by omega) (by omega)
  show decDigitsAux (n + 1) n = _
  unfold decDigitsAux
  simp only [Nat.not_lt.mpr h, if_false]
  rw [decDigitsAux_irrel n (n / 10 + 1) (n / 10) (by omega) (by omega)]
  rfl

theorem digitChar_toNat {d : Nat} (h : d < 10) : (digitChar d).toNat = 48 + d := by
  interval_cases d <;> decide

theorem isPyDigit_digitChar {d : Nat} (h : d < 10) : isPyDigit (digitChar d) = true := by
  simp [isPyDigit, digitChar_toNat h]
  omega

theorem decDigits_ne_nil (n : Nat) : decDigits n ≠ [] := by
  by_cases h : n < 10
  · rw [decDigits_small h]; simp
  · rw [decDigits_big (by omega)]; simp

theorem decDigits_mem_digit : ∀ n c, c ∈ decDigits n → isPyDigit c = true := by
  intro n
  induction n using Nat.strong_induction_on with
  | _ n ih =>
    intro c hc
    by_cases h : n < 10
    · rw [decDigits_small h] at hc
      simp at hc
      rw [hc]; exact isPyDigit_digitChar h
    · rw [decDigits_big (by omega)] at hc
      rcases List.mem_append.mp hc with h1 | h2
      · exact ih (n / 10) (Nat.div_lt_self (by omega) (by omega)) c h1
      · simp at h2
        rw [h2]; exact isPyDigit_digitChar (Nat.mod_lt _ (by omega))

theorem pyDigitsVal_append (acc : Nat) (xs ys : List Char) :
    pyDigitsVal acc (xs ++ ys) =
      (pyDigitsVal acc xs).bind (fun a => pyDigitsVal a ys) := by
  induction xs generalizing acc with
  | nil => rfl
  | cons c r ih =>
    show pyDigitsVal acc (c :: (r ++ ys)) = _
    cases hd : isPyDigit c with
    | true =>
      simp only [pyDigitsVal, hd, if_true]
      exact ih _
    | false =>
      simp [pyDigitsVal, hd]

theorem pyDigitsVal_decDigits : ∀ n acc,
    pyDigitsVal acc (decDigits n) = some (acc * 10 ^ (decDigits n).length + n) := by
  intro n
  induction n using Nat.strong_induction_on with
  | _ n ih =>
    intro acc
    by_cases h : n < 10
    · rw [decDigits_small h]
      show pyDigitsVal acc [digitChar n] = _
      unfold pyDigitsVal
      simp only [isPyDigit_digitChar h, if_true]
      unfold pyDigitsVal
      rw [digitChar_toNat h]
      simp
      omega
    · rw [decDigits_big (by omega)]
      rw [pyDigitsVal_append]
      rw [ih (n / 10) (Nat.div_lt_self (by omega) (by omega)) acc]
      show pyDigitsVal _ [digitChar (n % 10)] = _
      unfold pyDigitsVal
      simp only [isPyDigit_digitChar (Nat.mod_lt _ (by omega : (0:Nat) < 10)), if_true]
      unfold pyDigitsVal
      rw [digitChar_toNat (Nat.mod_lt _ (by omega : (0:Nat) < 10))]
      have hlen : ((decDigits (n / 10)).length + 1) = (decDigits (n / 10) ++ [digitChar (n % 10)]).length := by
        simp
      simp only [List.length_append, List.length_cons, List.length_nil]
      have : 10 * (acc * 10 ^ (decDigits (n / 10)).length + n / 10) + (48 + n % 10 - 48)
          = acc * 10 ^ ((decDigits (n / 10)).length + (0 + 1)) + n := by
        have h1 : 48 + n % 10 - 48 = n % 10 := by omega
        rw [h1, pow_add]
        have h2 : n = 10 * (n / 10) + n % 10 := (Nat.div_add_mod n 10).symm ▸ by omega
        ring_nf
        omega
      rw [this]

theorem pyDigitsVal_decDigits_zero (n : Nat) :
    pyDigitsVal 0 (decDigits n) = some n := by
  rw [pyDigitsVal_decDigits]
  simp

/-! ### Line-splitting lemmas -/

theorem takeLine_length_pos (c : Char) (cs : List Char) :
    0 < (takeLine (c :: cs)).length := by
  show 0 < (if c = '\n' then ['\n'] else c :: takeLine cs).length
  by_cases h : c = '\n' <;> simp [h]

theorem takeLine_length_le : ∀ l : List Char, (takeLine l).length ≤ l.length := by
  intro l
  induction l with
  | nil => simp [takeLine]
  | cons c cs ih =>
    show (if c = '\n' then ['\n'] else c :: takeLine cs).length ≤ _
    by_cases h : c = '\n'
    · simp [h]
    · simp only [h, if_false, List.length_cons]
      omega

theorem takeLine_eq_nil_iff (l : List Char) : takeLine l = [] ↔ l = [] := by
  cases l with
  | nil => simp [takeLine]
  | cons c cs =>
    show (if c = '\n' then ['\n'] else c :: takeLine cs) = [] ↔ _
    by_cases h : c = '\n' <;> simp [h]

theorem takeLine_no_nl : ∀ xs : List Char, (∀ c ∈ xs, c ≠ '\n') →
    takeLine xs = xs := by
  intro xs
  induction xs with
  | nil => intro; rfl
  | cons c cs ih =>
    intro h
    show (if c = '\n' then ['\n'] else c :: takeLine cs) = c :: cs
    rw [if_neg (h c (by simp))]
    rw [ih (fun d hd => h d (by simp [hd]))]

theorem takeLine_until_nl : ∀ (xs r : List Char), (∀ c ∈ xs, c ≠ '\n') →
    takeLine (xs ++ '\n' :: r) = xs ++ ['\n'] := by
  intro xs
  induction xs with
  | nil =>
    intro r _
    show (if '\n' = '\n' then ['\n'] else _) = _
    simp
  | cons c cs ih =>
    intro r h
    show (if c = '\n' then ['\n'] else c :: takeLine (cs ++ '\n' :: r)) = _
    rw [if_neg (h c (by simp))]
    rw [ih r (fun d hd => h d (by simp [hd]))]
    rfl

theorem pyLinesListAux_irrel : ∀ f₁ f₂ l, l.length ≤ f₁ → l.length ≤ f₂ →
    pyLinesListAux f₁ l = pyLinesListAux f₂ l := by
  intro f₁
  induction f₁ with
  | zero =>
    intro f₂ l h₁ _
    have : l = [] := by
      cases l with
      | nil => rfl
      | cons c cs => simp at h₁
    subst this
    cases f₂ <;> rfl
  | succ f ih =>
    intro f₂ l h₁ h₂
    cases l with
    | nil => cases f₂ <;> rfl
    | cons c cs =>
      match f₂, h₂ with
      | g + 1, h₂ =>
        show takeLine (c :: cs) :: pyLinesListAux f _ = takeLine (c :: cs) :: pyLinesListAux g _
        have hpos := takeLine_length_pos c cs
        have hle : (List.drop (takeLine (c :: cs)).length (c :: cs)).length ≤ f := by
          simp only [List.length_drop, List.length_cons]
          simp only [List.length_cons] at h₁
          omega
        have hle₂ : (List.drop (takeLine (c :: cs)).length (c :: cs)).length ≤ g := by
          simp only [List.length_drop, List.length_cons]
          simp only [List.length_cons] at h₂
          omega
        rw [ih g _ hle hle₂]

theorem pyLinesList_cons (c : Char) (cs : List Char) :
    pyLinesList (c :: cs) =
      takeLine (c :: cs) ::
        pyLinesList (List.drop (takeLine (c :: cs)).length (c :: cs)) := by
  show pyLinesListAux (cs.length + 1) (c :: cs) = _
  show takeLine (c :: cs) :: pyLinesListAux cs.length _ = _
  have hpos := takeLine_length_pos c cs
  rw [pyLinesListAux_irrel cs.length (List.drop (takeLine (c :: cs)).length (c :: cs)).length _
    (by simp only [List.length_drop, List.length_cons]; omega) (le_refl _)]
  rfl

theorem pyLinesList_nil : pyLinesList [] = [] := rfl

/-! ### Strip lemmas -/

theorem dropWhile_head_not_ws (xs : List Char)
    (h : ∀ a, xs.head? = some a → isPyWs a = false) :
    xs.dropWhile isPyWs = xs := by
  cases xs with
  | nil => rfl
  | cons c cs => simp [List.dropWhile, h c rfl]

theorem stripList_digits_nl (xs : List Char) (hne : xs ≠ [])
    (h : ∀ c ∈ xs, isPyDigit c = true) :
    stripList (xs ++ ['\n']) = xs := by
  have hws : ∀ c ∈ xs, isPyWs c = false := by
    intro c hc
    have := h c hc
    simp [isPyDigit] at this
    simp [isPyWs]
    omega
  unfold stripList
  have h1 : (xs ++ ['\n']).dropWhile isPyWs = xs ++ ['\n'] := by
    apply dropWhile_head_not_ws
    intro a ha
    cases xs with
    | nil => exact absurd rfl hne
    | cons d rest =>
      simp at ha
      rw [← ha]
      exact hws d (by simp)
  rw [h1]
  have h2 : (xs ++ ['\n']).reverse = '\n' :: xs.reverse := by simp
  rw [h2]
  have h3 : List.dropWhile isPyWs ('\n' :: xs.reverse) = List.dropWhile isPyWs xs.reverse := by
    simp [List.dropWhile, isPyWs]
  rw [h3]
  rw [dropWhile_head_not_ws]
  · simp
  · intro a ha
    apply hws
    rw [← List.mem_reverse]
    exact List.mem_of_mem_head? ha

/-! ### Offset-file round trip -/

theorem decDigits_no_nl (n : Nat) : ∀ c ∈ decDigits n, c ≠ '\n' := by
  intro c hc he
  have := decDigits_mem_digit n c hc
  rw [he] at this
  exact absurd this (by decide)

theorem pyInt_decDigits (n : Nat) : pyInt (decDigits n) = some (n : Int) := by
  rcases hd : decDigits n with _ | ⟨c, r⟩
  · exact absurd hd (decDigits_ne_nil n)
  · have hdig : isPyDigit c = true := decDigits_mem_digit n c (by rw [hd]; simp)
    have hm : c ≠ '-' := by
      intro he; rw [he] at hdig; exact absurd hdig (by decide)
    have hp : c ≠ '+' := by
      intro he; rw [he] at hdig; exact absurd hdig (by decide)
    show pyInt (c :: r) = _
    simp only [pyInt, if_neg hm, if_neg hp]
    rw [← hd, pyDigitsVal_decDigits_zero]
    rfl

theorem renderInt_natCast (n : Nat) : renderInt (n : Int) = decDigits n := by
  unfold renderInt
  rw [if_neg (Int.not_lt.mpr (Int.natCast_nonneg n))]
  norm_num

theorem pyLinesList_single (ds : List Char) (hne : ds ≠ [])
    (hnl : ∀ c ∈ ds, c ≠ '\n') :
    pyLinesList (ds ++ ['\n']) = [ds ++ ['\n']] := by
  cases ds with
  | nil => exact absurd rfl hne
  | cons d r =>
    simp only [List.cons_append]
    rw [pyLinesList_cons]
    have ht : takeLine (d :: (r ++ ['\n'])) = d :: (r ++ ['\n']) := by
      have h0 := takeLine_until_nl (d :: r) [] hnl
      simpa using h0
    rw [ht, List.drop_length]
    rfl

theorem pyLinesList_two (ds₁ ds₂ : List Char) (h₁ : ds₁ ≠ []) (h₂ : ds₂ ≠ [])
    (hn₁ : ∀ c ∈ ds₁, c ≠ '\n') (hn₂ : ∀ c ∈ ds₂, c ≠ '\n') :
    pyLinesList (ds₁ ++ '\n' :: (ds₂ ++ ['\n'])) = [ds₁ ++ ['\n'], ds₂ ++ ['\n']] := by
  cases ds₁ with
  | nil => exact absurd rfl h₁
  | cons d r =>
    simp only [List.cons_append]
    rw [pyLinesList_cons]
    have ht : takeLine (d :: (r ++ '\n' :: (ds₂ ++ ['\n']))) = d :: (r ++ ['\n']) := by
      have h0 := takeLine_until_nl (d :: r) (ds₂ ++ ['\n']) hn₁
      simpa using h0
    rw [ht]
    have hdrop : List.drop (d :: (r ++ ['\n'])).length (d :: (r ++ '\n' :: (ds₂ ++ ['\n'])))
        = ds₂ ++ ['\n'] := by
      have hsplit : d :: (r ++ '\n' :: (ds₂ ++ ['\n']))
          = (d :: (r ++ ['\n'])) ++ (ds₂ ++ ['\n']) := by
        simp
      rw [hsplit, List.drop_left]
    rw [hdrop, pyLinesList_single ds₂ h₂ hn₂]

theorem loadOffsetFileContent_two (cs l1 l2 : List Char)
    (h : pyLinesList cs = [l1, l2]) :
    loadOffsetFileContent cs =
      (pyInt (stripList l1)).bind
        (fun a => (pyInt (stripList l2)).bind (fun b => some (a, b))) := by
  unfold loadOffsetFileContent
  rw [h]
  rfl

theorem load_render (i o : Nat) :
    loadOffsetFileContent (renderPair (i : Int) (o : Int)) = some ((i : Int), (o : Int)) := by
  have hr : renderPair (i : Int) (o : Int)
      = decDigits i ++ '\n' :: (decDigits o ++ ['\n']) := by
    unfold renderPair
    rw [renderInt_natCast, renderInt_natCast]
  have hl := pyLinesList_two (decDigits i) (decDigits o)
    (decDigits_ne_nil i) (decDigits_ne_nil o) (decDigits_no_nl i) (decDigits_no_nl o)
  rw [hr, loadOffsetFileContent_two _ _ _ hl]
  rw [stripList_digits_nl (decDigits i) (decDigits_ne_nil i) (decDigits_mem_digit i)]
  rw [stripList_digits_nl (decDigits o) (decDigits_ne_nil o) (decDigits_mem_digit o)]
  rw [pyInt_decDigits, pyInt_decDigits]
  rfl

theorem renderPair_ne_nil (i o : Int) : renderPair i o ≠ [] := by
  unfold renderPair
  intro h
  cases hri : renderInt i with
  | nil => rw [hri] at h; simp at h
  | cons a b => rw [hri] at h; simp at h

theorem renderPair_length_pos (i o : Int) : 0 < (renderPair i o).length := by
  cases hr : renderPair i o with
  | nil => exact absurd hr (renderPair_ne_nil i o)
  | cons a b => simp

/-! ### Glob patterns (the subset `glob.glob` needs for the source's
candidate patterns: literal characters, `*`, `?` and `[...]`
character classes with ranges) -/

/-- One token of a glob pattern. -/
inductive GlobTok where
  | lit (c : Char)
  | any
  | star
  | cls (ranges : List (Char × Char))
deriving DecidableEq

/-- Read the body of a `[...]` class up to the closing bracket; returns
the ranges and the remaining pattern characters. -/
def readClass : List Char → List (Char × Char) × List Char
  | [] => ([], [])
  | ']' :: r => ([], r)
  | a :: '-' :: ']' :: r => ([(a, a), ('-', '-')], r)
  | a :: '-' :: b :: r =>
    let p := readClass r
    ((a, b) :: p.1, p.2)
  | a :: r =>
    let p := readClass r
    ((a, a) :: p.1, p.2)

/-- Tokenize a glob pattern; fuel-indexed (the fuel is instantiated with
the pattern length, which always suffices). -/
def parseGlobAux : Nat → List Char → List GlobTok
  | 0, _ => []
  | _ + 1, [] => []
  | fuel + 1, '*' :: r => GlobTok.star :: parseGlobAux fuel r
  | fuel + 1, '?' :: r => GlobTok.any :: parseGlobAux fuel r
  | fuel + 1, '[' :: r =>
    let p := readClass r
    GlobTok.cls p.1 :: parseGlobAux fuel p.2
  | fuel + 1, c :: r => GlobTok.lit c :: parseGlobAux fuel r

/-- Tokenize a glob pattern string. -/
def parseGlob (pat : String) : List GlobTok := parseGlobAux pat.data.length pat.data

/-- Glob matching (full-string, as `fnmatch` does); fuel-indexed (each
step consumes a pattern token or an input character, so
`|pattern| + |input| + 1` fuel always suffices). -/
def globMatchAux : Nat → List GlobTok → List Char → Bool
  | 0, _, _ => false
  | _ + 1, [], [] => true
  | _ + 1, [], _ :: _ => false
  | fuel + 1, GlobTok.lit c :: ps, xs =>
    match xs with
    | [] => false
    | x :: xr => c == x && globMatchAux fuel ps xr
  | fuel + 1, GlobTok.any :: ps, xs =>
    match xs with
    | [] => false
    | _ :: xr => globMatchAux fuel ps xr
  | fuel + 1, GlobTok.cls rs :: ps, xs =>
    match xs with
    | [] => false
    | x :: xr =>
      rs.any (fun p => decide (p.1 ≤ x) && decide (x ≤ p.2)) && globMatchAux fuel ps xr
  | fuel + 1, GlobTok.star :: ps, xs =>
    globMatchAux fuel ps xs ||
      (match xs with
       | [] => false
       | _ :: xr => globMatchAux fuel (GlobTok.star :: ps) xr)

/-- Whether a path matches a glob pattern. -/
def globMatchStr (pat : String) (s : String) : Bool :=
  let ps := parseGlob pat
  globMatchAux (ps.length + s.data.length + 1) ps s.data

/-! ### Paths -/

/-- `str.endswith` on paths (`filename.endswith('.gz')` etc.). -/
def strEndsWith (s suffix : String) : Bool :=
  suffix.data.length ≤ s.data.length &&
    s.data.drop (s.data.length - suffix.data.length) == suffix.data

/-- `os.path.isabs`. -/
def isAbs (s : String) : Bool :=
  match s.data with
  | '/' :: _ => true
  | _ => false

/-- `os.path.dirname`: everything before the last `/` (empty when there
is no `/`; paths rooted at `/` itself are not needed by the scenarios). -/
def dirnameStr (s : String) : String :=
  let r := s.data.reverse
  let base := r.takeWhile (fun c => c ≠ '/')
  if base.length = r.length then "" else String.mk ((r.drop (base.length + 1)).reverse)

/-- `os.path.basename`: everything after the last `/`. -/
def basenameStr (s : String) : String :=
  String.mk ((s.data.reverse.takeWhile (fun c => c ≠ '/')).reverse)

/-- `os.path.join` for the two-argument uses in the source. -/
def pathJoin (a b : String) : String :=
  if isAbs b then b
  else if a = "" then b
  else if strEndsWith a "/" then a ++ b
  else a ++ "/" ++ b

/-! ### File-system model -/

/-- A file on disk: inode, text content and modification time. -/
structure File where
  ino : Nat
  content : List Char
  mtime : Nat
deriving DecidableEq

/-- The file system: an association list from paths to files, plus the
set of directory paths. It is immutable during a single call into the
tailer; the world mutates it between calls. -/
structure FS where
  entries : List (String × File)
  dirs : List String
deriving DecidableEq

/-- `os.stat` by path (`none` models the raised `OSError`). -/
def FS.statPath (fs : FS) (p : String) : Option File :=
  (fs.entries.find? (fun e => e.1 == p)).map (fun e => e.2)

/-- `os.path.exists`. -/
def FS.pathExists (fs : FS) (p : String) : Bool :=
  (fs.statPath p).isSome || fs.dirs.contains p

/-- `os.path.isdir`. -/
def FS.isDir (fs : FS) (p : String) : Bool := fs.dirs.contains p

/-- `os.path.getsize` (callers guard existence first). -/
def FS.getsize (fs : FS) (p : String) : Nat :=
  ((fs.statPath p).map (fun f => f.content.length)).getD 0

/-- `os.stat(p).st_mtime` (callers guard existence first). -/
def FS.mtimeOf (fs : FS) (p : String) : Nat :=
  ((fs.statPath p).map (fun f => f.mtime)).getD 0

/-- `os.fstat` through an open handle: content of an inode (first entry
holding it; the scenarios keep inodes unique). -/
def FS.contentOfIno (fs : FS) (i : Nat) : Option (List Char) :=
  (fs.entries.find? (fun e => e.2.ino == i)).map (fun e => e.2.content)

/-- A fresh inode for a newly created file. -/
def FS.freshIno (fs : FS) : Nat :=
  (fs.entries.map (fun e => e.2.ino)).foldr max 0 + 1

/-- `open(p, "w")` followed by a write: truncate in place (keeping the
inode) or create a fresh file. -/
def FS.writeFile (fs : FS) (p : String) (content : List Char) : FS :=
  if (fs.statPath p).isSome then
    ⟨fs.entries.map (fun e => if e.1 = p then (e.1, ⟨e.2.ino, content, e.2.mtime⟩) else e),
     fs.dirs⟩
  else
    ⟨fs.entries ++ [(p, ⟨fs.freshIno, content, 0⟩)], fs.dirs⟩

/-- `glob.glob(pattern)`: every path in the file system matching the
pattern. -/
def FS.globGlob (fs : FS) (pat : String) : List String :=
  (fs.entries.filter (fun e => globMatchStr pat e.1)).map (fun e => e.1)

/-- Python string `<` (lexicographic by code point). -/
def listLt : List Char → List Char → Bool
  | [], [] => false
  | [], _ :: _ => true
  | _ :: _, [] => false
  | a :: as, b :: bs => if a < b then true else if b < a then false else listLt as bs

/-- `candidates.sort(); candidates[-1]`: the maximum of a list of paths
under Python string order. -/
def maxString : List String → Option String
  | [] => none
  | s :: r => some (r.foldl (fun a b => if listLt a.data b.data then b else a) s)

/-- The `for globbing in candidate_globs` loop body: first pattern with
matches wins, most recent (lexicographically greatest) match returned. -/
def firstGlobMax (fs : FS) : List String → Option String
  | [] => none
  | g :: gs =>
    match maxString (fs.globGlob g) with
    | some c => some c
    | none => firstGlobMax fs gs

/-! ### The Pygtail class -/

/-- An open file handle: the inode it refers to, the read position, and
whether it was opened through `gzip.open` (i.e. the name ended in
lowercase `.gz`). Reads go through the inode, so a handle follows a file
across renames, and sees appends made between calls. -/
structure Handle where
  ino : Nat
  pos : Nat
  gz : Bool
deriving DecidableEq

/-- The mutable state of a `Pygtail` instance. `offset_file_inode` is an
`Int` because it is parsed with `int()`; a closed handle is modelled as
`fh = none` (equivalent to the source's closed-handle check, since
`_filehandle` reopens in both cases). `on_update` and `encoding` have no
observable effect in this model and are omitted. -/
structure PState where
  filename : String
  offset_file : String
  paranoid : Bool
  every_n : Nat
  copytruncate : Bool
  read_from_end : Bool
  log_patterns : List String
  full_lines : Bool
  save_on_end : Bool
  olddir : Option String
  offset_file_inode : Int
  offset : Nat
  since_update : Nat
  fh : Option Handle
  rotated_logfile : Option String
  counter : Nat
deriving DecidableEq

/-- The keyword arguments of `Pygtail.__init__`. -/
structure Args where
  filename : String
  offset_file : Option String
  paranoid : Bool
  every_n : Nat
  copytruncate : Bool
  read_from_end : Bool
  log_patterns : List String
  full_lines : Bool
  save_on_end : Bool
  olddir : Option String
deriving DecidableEq

/-- The default keyword arguments for a given monitored path. -/
def defaultArgs (p : String) : Args :=
  ⟨p, none, false, 0, true, false, [], false, true, none⟩

/-- The state assembled by the plain attribute assignments at the top of
`__init__`, before the offset file is consulted. Note the source assigns
`self.olddir = None` here, discarding the `olddir` argument. -/
def baseState (a : Args) : PState where
  filename := a.filename
  offset_file := a.offset_file.getD (a.filename ++ ".offset")
  paranoid := a.paranoid
  every_n := a.every_n
  copytruncate := a.copytruncate
  read_from_end := a.read_from_end
  log_patterns := a.log_patterns
  full_lines := a.full_lines
  save_on_end := a.save_on_end
  olddir := none
  offset_file_inode := 0
  offset := 0
  since_update := 0
  fh := none
  rotated_logfile := none
  counter := 0

/-- `filename.endswith('.gz')`, the (case-sensitive) test `_filehandle`
uses to decide whether to open through `gzip.open`. -/
def isGzipName (name : String) : Bool := strEndsWith name ".gz"

/-- The built-in `rotated_filename_patterns` list of
`_check_rotated_filename_candidates` (the commented-out bz2/xz entries
of the source are likewise omitted here). -/
def rotatedFilenamePatterns : List String :=
  ["-[0-9][0-9][0-9][0-9]-[0-9][0-9]-[0-9][0-9]",
   "-[0-9][0-9][0-9][0-9]-[0-9][0-9]-[0-9][0-9].[Gg][Zz]",
   "-[0-9][0-9][0-9][0-9][0-9][0-9][0-9][0-9]",
   "-[0-9][0-9][0-9][0-9][0-9][0-9][0-9][0-9].[Gg][Zz]",
   "-[0-9][0-9][0-9][0-9][0-9][0-9][0-9][0-9]-[0-9][0-9][0-9][0-9][0-9][0-9][0-9][0-9][0-9][0-9]",
   "-[0-9][0-9][0-9][0-9][0-9][0-9][0-9][0-9]-[0-9][0-9][0-9][0-9][0-9][0-9][0-9][0-9][0-9][0-9].[Gg][Zz]",
   ".[0-9][0-9][0-9][0-9]-[0-9][0-9]-[0-9][0-9]"]

/-- `Pygtail._check_rotated_filename_candidates`. -/
def check_rotated_filename_candidates (fs : FS) (st : PState) : Option String :=
  let logdir := dirnameStr st.filename
  let log_basename := basenameStr st.filename
  let olddir :=
    match st.olddir with
    | some od =>
      let od₁ := if isAbs od then od else pathJoin logdir od
      if fs.pathExists od₁ && fs.isDir od₁ then od₁ else logdir
    | none => logdir
  let candidate := st.filename ++ ".0"
  if fs.pathExists candidate && fs.pathExists (st.filename ++ ".1.gz") &&
      decide (fs.mtimeOf (st.filename ++ ".1.gz") < fs.mtimeOf candidate) then
    some candidate
  else
    let candidate_globs := [pathJoin olddir log_basename ++ ".1",
                            pathJoin olddir log_basename ++ ".1.[Gg][Zz]"]
    match firstGlobMax fs candidate_globs with
    | some c => some c
    | none =>
      let pats := rotatedFilenamePatterns ++ st.log_patterns
      firstGlobMax fs (pats.map (fun pat => pathJoin olddir (log_basename ++ pat)))

/-- `Pygtail._determine_rotated_logfile`. -/
def determine_rotated_logfile (fs : FS) (st : PState) : Option String :=
  match check_rotated_filename_candidates fs st with
  | none => none
  | some rf =>
    if fs.pathExists rf then
      match fs.statPath rf with
      | none => none
      | some frf =>
        if (frf.ino : Int) == st.offset_file_inode then some rf
        else
          match fs.statPath st.filename with
          | none => none
          | some f =>
            if (f.ino : Int) == st.offset_file_inode then
              if st.copytruncate then some rf else none
            else none
    else none

/-- The handle `_filehandle` builds when it has to (re)open: the file at
the rotated path (if set) or the monitored path, positioned at the end
of the file on a fresh start-at-end run and at the stored offset
otherwise, opened through `gzip.open` iff the name ends in `.gz`. -/
def openedHandle (fs : FS) (st : PState) (f : File) : Handle :=
  ⟨f.ino,
   if st.read_from_end && !(fs.pathExists st.offset_file) then f.content.length
   else st.offset,
   isGzipName (st.rotated_logfile.getD st.filename)⟩

/-- `Pygtail._filehandle`: return the open handle, opening the rotated
or monitored file and seeking when the previous one was closed. -/
def filehandle (fs : FS) (st : PState) : Option (Handle × PState) :=
  match st.fh with
  | some h => some (h, st)
  | none =>
    match fs.statPath (st.rotated_logfile.getD st.filename) with
    | none => none
    | some f =>
      some (openedHandle fs st f,
            { st with fh := some (openedHandle fs st f), counter := st.counter + 1 })

/-- `Pygtail.update_offset_file`: write the current handle's inode and
offset to the sidecar file and reset the lines-since-commit counter. -/
def update_offset_file (fs : FS) (st : PState) : Option (FS × PState) :=
  match filehandle fs st with
  | none => none
  | some (h, st₁) =>
    some (fs.writeFile st₁.offset_file (renderPair (h.ino : Int) (h.pos : Int)),
          { st₁ with since_update := 0 })

/-- `Pygtail._is_new_file`: true when draining a rotated file, or when
the handle is at the end of its file and its inode differs from the
monitored path's current inode. -/
def is_new_file (fs : FS) (st : PState) : Option (Bool × PState) :=
  match st.rotated_logfile with
  | some _ => some (true, st)
  | none =>
    match filehandle fs st with
    | none => none
    | some (h, st₁) =>
      match fs.contentOfIno h.ino with
      | none => none
      | some c =>
        match fs.statPath st₁.filename with
        | none => none
        | some f => some ((h.pos == c.length) && !(h.ino == f.ino), st₁)

/-- `Pygtail._get_next_line`: one `readline()`, with the
complete-lines-only rewind and the `StopIteration` (modelled as
`none` in the first component) on an empty read. -/
def get_next_line (fs : FS) (st : PState) : Option (Option (List Char) × PState) :=
  match filehandle fs st with
  | none => none
  | some (h, st₁) =>
    match fs.contentOfIno h.ino with
    | none => none
    | some c =>
      if st₁.full_lines && !((takeLine (c.drop h.pos)).getLast? == some '\n') then
        some (none, { st₁ with fh := some ⟨h.ino, h.pos, h.gz⟩ })
      else if takeLine (c.drop h.pos) = [] then
        some (none,
          { st₁ with fh := some ⟨h.ino, h.pos + (takeLine (c.drop h.pos)).length, h.gz⟩ })
      else
        some (some (takeLine (c.drop h.pos)),
          { st₁ with fh := some ⟨h.ino, h.pos + (takeLine (c.drop h.pos)).length, h.gz⟩,
                     since_update := st₁.since_update + 1 })

/-- The commit check at the end of `Pygtail.next`, run after every
successful line read: paranoid saves always, otherwise the every-n
interval is consulted against `since_update`. -/
def after_yield (fs : FS) (st : PState) (line : List Char) :
    Option (Option (List Char) × FS × PState) :=
  if st.paranoid then
    match update_offset_file fs st with
    | none => none
    | some (fs₁, st₁) => some (some line, fs₁, st₁)
  else if 0 < st.every_n ∧ st.every_n ≤ st.since_update then
    match update_offset_file fs st with
    | none => none
    | some (fs₁, st₁) => some (some line, fs₁, st₁)
  else
    some (some line, fs, st)

/-- The body of the `if self._is_new_file()` branch of `Pygtail.next`:
forget the rotated file, close the handle, reset the offset to 0, and
retry the read once from the monitored path. -/
def retry_from_current (fs : FS) (st : PState) :
    Option (Option (List Char) × FS × PState) :=
  match get_next_line fs { st with rotated_logfile := none, fh := none, offset := 0 } with
  | none => none
  | some (some line, st₄) => after_yield fs st₄ line
  | some (none, st₄) =>
    if st₄.save_on_end then
      match update_offset_file fs st₄ with
      | none => none
      | some (fs₁, st₅) => some (none, fs₁, st₅)
    else some (none, fs, st₄)

/-- `Pygtail.next`: the first component of the result is `some line` for
a yielded line and `none` for `StopIteration` (`EXHAUSTED`). -/
def next (fs : FS) (st : PState) : Option (Option (List Char) × FS × PState) :=
  match get_next_line fs st with
  | none => none
  | some (some line, st₁) => after_yield fs st₁ line
  | some (none, st₁) =>
    match is_new_file fs st₁ with
    | none => none
    | some (true, st₂) => retry_from_current fs st₂
    | some (false, st₂) =>
      if st₂.save_on_end then
        match update_offset_file fs st₂ with
        | none => none
        | some (fs₁, st₅) => some (none, fs₁, st₅)
      else some (none, fs, st₂)

/-- `Pygtail.__init__`: build the base state, then, if the offset file
exists and is non-empty, parse it and run the startup rotation check.
A parse failure models the raised `ValueError`; a negative parsed
offset (never written by `update_offset_file`) would make the later
`seek` raise and is likewise modelled as failure. -/
def init (fs : FS) (a : Args) : Option (FS × PState) :=
  let st₀ := baseState a
  if fs.pathExists st₀.offset_file && decide (0 < fs.getsize st₀.offset_file) then
    match fs.statPath st₀.offset_file with
    | none => none
    | some fo =>
      match loadOffsetFileContent fo.content with
      | none => none
      | some (iI, oI) =>
        if oI < 0 then none
        else
          let st₁ := { st₀ with offset_file_inode := iI, offset := oI.toNat }
          match fs.statPath a.filename with
          | none => none
          | some f =>
            if iI ≠ (f.ino : Int) ∨ f.content.length < st₁.offset then
              let rot := determine_rotated_logfile fs st₁
              let st₂ := { st₁ with rotated_logfile := rot }
              if st₂.copytruncate && rot.isNone then
                let st₃ := { st₂ with offset := 0 }
                match update_offset_file fs st₃ with
                | none => none
                | some (fs₁, st₄) => some (fs₁, st₄)
              else some (fs, st₂)
            else some (fs, st₁)
  else some (fs, st₀)

/-- `Pygtail.readlines`, with explicit fuel for the iteration (`none` on
fuel exhaustion): collect yielded lines until `StopIteration`. -/
def readlines (fuel : Nat) (fs : FS) (st : PState) :
    Option (List (List Char) × FS × PState) :=
  match fuel with
  | 0 => none
  | fuel' + 1 =>
    match next fs st with
    | none => none
    | some (none, fs₁, st₁) => some ([], fs₁, st₁)
    | some (some line, fs₁, st₁) =>
      (readlines fuel' fs₁ st₁).map (fun r => (line :: r.1, r.2.1, r.2.2))

/-- `Pygtail.read`: all unread lines joined into one string, or `None`
(not the empty string) if there were none. -/
def read (fuel : Nat) (fs : FS) (st : PState) :
    Option (Option (List Char) × FS × PState) :=
  (readlines fuel fs st).map
    (fun r => (if r.1.isEmpty then none else some r.1.flatten, r.2.1, r.2.2))

/-! ### Basic state lemmas -/

theorem PState.eta_fh (st : PState) (h : Handle) (hfh : st.fh = some h) :
    { st with fh := some h } = st := by
  cases st
  simp only at hfh
  simp [hfh]

theorem filehandle_open (fs : FS) (st : PState) (h : Handle) (hfh : st.fh = some h) :
    filehandle fs st = some (h, st) := by
  unfold filehandle
  rw [hfh]

/-- `_filehandle` hands back a state whose `fh` is the returned handle. -/
theorem filehandle_fh (fs : FS) (st : PState) (h : Handle) (st₁ : PState)
    (heq : filehandle fs st = some (h, st₁)) : st₁.fh = some h := by
  unfold filehandle at heq
  cases hfh : st.fh with
  | some h₀ =>
    rw [hfh] at heq
    simp at heq
    rw [← heq.2, hfh, heq.1]
  | none =>
    rw [hfh] at heq
    cases hst : fs.statPath (st.rotated_logfile.getD st.filename) with
    | none => rw [hst] at heq; simp at heq
    | some f =>
      rw [hst] at heq
      simp at heq
      rw [← heq.2]
      simp [heq.1]

/-- `next` only looks at the incoming state through `_filehandle`, so an
explicitly pre-opened state gives the same result. -/
theorem next_congr (fs : FS) (st : PState) (h : Handle) (st₁ : PState)
    (heq : filehandle fs st = some (h, st₁)) :
    next fs st = next fs st₁ := by
  have h₁ : filehandle fs st₁ = some (h, st₁) :=
    filehandle_open fs st₁ h (filehandle_fh fs st h st₁ heq)
  unfold next get_next_line
  rw [heq, h₁]

theorem get_next_line_eq (fs : FS) (st : PState) (i pos : Nat) (g : Bool)
    (c : List Char) (hfh : st.fh = some ⟨i, pos, g⟩)
    (hc : fs.contentOfIno i = some c) :
    get_next_line fs st =
      (if st.full_lines && !((takeLine (c.drop pos)).getLast? == some '\n') then
        some (none, { st with fh := some ⟨i, pos, g⟩ })
      else if takeLine (c.drop pos) = [] then
        some (none, { st with fh := some ⟨i, pos + (takeLine (c.drop pos)).length, g⟩ })
      else
        some (some (takeLine (c.drop pos)),
          { st with fh := some ⟨i, pos + (takeLine (c.drop pos)).length, g⟩,
                    since_update := st.since_update + 1 })) := by
  unfold get_next_line
  rw [filehandle_open fs st _ hfh]
  show (match fs.contentOfIno i with
    | none => none
    | some c => _) = _
  rw [hc]

/-- A successful mid-file read at the `_get_next_line` level: the next
line comes back, the handle advances past it, `since_update` is
bumped. -/
theorem get_next_line_yield (fs : FS) (st : PState) (i pos : Nat) (g : Bool)
    (c : List Char)
    (hfh : st.fh = some ⟨i, pos, g⟩) (hc : fs.contentOfIno i = some c)
    (hpos : pos < c.length) (hfl : st.full_lines = false) :
    get_next_line fs st = some (some (takeLine (c.drop pos)),
      { st with fh := some ⟨i, pos + (takeLine (c.drop pos)).length, g⟩,
                since_update := st.since_update + 1 }) := by
  have hne : takeLine (c.drop pos) ≠ [] := by
    intro h0
    rw [takeLine_eq_nil_iff] at h0
    rw [List.drop_eq_nil_iff] at h0
    omega
  rw [get_next_line_eq fs st i pos g c hfh hc]
  rw [if_neg (show ¬((st.full_lines
    && !((takeLine (c.drop pos)).getLast? == some '\n')) = true) from by rw [hfl]; simp)]
  rw [if_neg hne]

/-- One successful mid-file read with the default commit configuration:
`next` yields the next line, advances the handle, bumps `since_update`,
and leaves the file system alone. -/
theorem step_yield (fs : FS) (st : PState) (i pos : Nat) (g : Bool) (c : List Char)
    (hfh : st.fh = some ⟨i, pos, g⟩) (hc : fs.contentOfIno i = some c)
    (hpos : pos < c.length)
    (hpar : st.paranoid = false) (hn : st.every_n = 0) (hfl : st.full_lines = false) :
    next fs st = some (some (takeLine (c.drop pos)), fs,
      { st with fh := some ⟨i, pos + (takeLine (c.drop pos)).length, g⟩,
                since_update := st.since_update + 1 }) := by
  unfold next
  rw [get_next_line_yield fs st i pos g c hfh hc hpos hfl]
  show after_yield fs _ _ = _
  simp [after_yield, hpar, hn]

/-- `update_offset_file` on a state with an open handle. -/
theorem update_offset_file_open (fs : FS) (st : PState) (h : Handle)
    (hfh : st.fh = some h) :
    update_offset_file fs st =
      some (fs.writeFile st.offset_file (renderPair (h.ino : Int) (h.pos : Int)),
            { st with since_update := 0 }) := by
  unfold update_offset_file
  rw [filehandle_open fs st h hfh]

/-- `_is_new_file` on a state whose handle sits at the end of its file
while the monitored path still has the same inode: no rotation. -/
theorem is_new_file_false (fs : FS) (st : PState) (i : Nat) (g : Bool)
    (c : List Char) (f : File)
    (hfh : st.fh = some ⟨i, c.length, g⟩) (hc : fs.contentOfIno i = some c)
    (hrot : st.rotated_logfile = none)
    (hf : fs.statPath st.filename = some f) (hino : f.ino = i) :
    is_new_file fs st = some (false, st) := by
  unfold is_new_file
  rw [hrot, filehandle_open fs st _ hfh]
  show (match fs.contentOfIno i with
    | none => none
    | some c => _) = _
  rw [hc]
  show (match fs.statPath st.filename with
    | none => none
    | some f => _) = _
  rw [hf]
  simp [hino]

/-- `_get_next_line` at end-of-file: `StopIteration` and an unchanged
state (whether or not complete-lines-only is configured). -/
theorem get_next_line_eof (fs : FS) (st : PState) (i : Nat) (g : Bool)
    (c : List Char)
    (hfh : st.fh = some ⟨i, c.length, g⟩) (hc : fs.contentOfIno i = some c) :
    get_next_line fs st = some (none, st) := by
  have hline : takeLine (c.drop c.length) = [] := by rw [List.drop_length]; rfl
  have heta : ({ st with fh := some ⟨i, c.length, g⟩ } : PState) = st :=
    PState.eta_fh st _ hfh
  rw [get_next_line_eq fs st i c.length g c hfh hc]
  rw [hline]
  cases hb : (st.full_lines && !(List.getLast? ([] : List Char) == some '\n')) with
  | true =>
    rw [if_pos rfl]
    rw [heta]
  | false =>
    rw [if_neg (by simp)]
    rw [if_pos rfl]
    simp only [List.length_nil, Nat.add_zero]
    rw [heta]

/-- `next` at end-of-file with no rotation in sight and save-on-end
enabled: the offset file is committed and `StopIteration` is raised. -/
theorem stop_save (fs : FS) (st : PState) (i : Nat) (g : Bool) (c : List Char)
    (f : File)
    (hfh : st.fh = some ⟨i, c.length, g⟩) (hc : fs.contentOfIno i = some c)
    (hrot : st.rotated_logfile = none)
    (hf : fs.statPath st.filename = some f) (hino : f.ino = i)
    (hsave : st.save_on_end = true) :
    next fs st = some (none,
      fs.writeFile st.offset_file (renderPair (i : Int) (c.length : Int)),
      { st with since_update := 0 }) := by
  have hinf := is_new_file_false fs st i g c f hfh hc hrot hf hino
  unfold next
  rw [get_next_line_eof fs st i g c hfh hc]
  simp only [hinf]
  rw [if_pos hsave]
  rw [update_offset_file_open fs st ⟨i, c.length, g⟩ hfh]

/-- `next` at end-of-file with no rotation and save-on-end disabled:
nothing is written. -/
theorem stop_nosave (fs : FS) (st : PState) (i : Nat) (g : Bool) (c : List Char)
    (f : File)
    (hfh : st.fh = some ⟨i, c.length, g⟩) (hc : fs.contentOfIno i = some c)
    (hrot : st.rotated_logfile = none)
    (hf : fs.statPath st.filename = some f) (hino : f.ino = i)
    (hsave : st.save_on_end = false) :
    next fs st = some (none, fs, st) := by
  have hinf := is_new_file_false fs st i g c f hfh hc hrot hf hino
  unfold next
  rw [get_next_line_eof fs st i g c hfh hc]
  simp only [hinf]
  rw [if_neg (by simp [hsave])]

/-! ### The reading loop -/

theorem readlines_zero (fs : FS) (st : PState) : readlines 0 fs st = none := rfl

theorem readlines_succ (fuel : Nat) (fs : FS) (st : PState) :
    readlines (fuel + 1) fs st =
      match next fs st with
      | none => none
      | some (none, fs₁, st₁) => some ([], fs₁, st₁)
      | some (some line, fs₁, st₁) =>
        (readlines fuel fs₁ st₁).map (fun r => (line :: r.1, r.2.1, r.2.2)) := rfl

/-- The state at the end of a drain: handle moved to position `len`,
`since_update` bumped by the `n` lines read on the way. -/
def drained (st : PState) (i : Nat) (g : Bool) (len n : Nat) : PState :=
  { st with fh := some ⟨i, len, g⟩, since_update := st.since_update + n }

theorem drained_zero (st : PState) (i : Nat) (g : Bool) (len : Nat)
    (hfh : st.fh = some ⟨i, len, g⟩) : drained st i g len 0 = st := by
  unfold drained
  cases st
  simp only at hfh
  simp [hfh]

theorem drained_step (st : PState) (i : Nat) (g : Bool) (len pos n : Nat) :
    drained { st with fh := some ⟨i, pos, g⟩, since_update := st.since_update + 1 }
        i g len n
      = drained st i g len (n + 1) := by
  unfold drained
  cases st
  simp
  omega

/-- Draining a file with the default commit configuration: starting from
an open handle at `pos`, the loop yields exactly the lines of the
content from `pos` on, ends with the handle at end-of-file and
`since_update` bumped once per line, consuming one unit of fuel per
line, and then continues from there. -/
theorem drain (c : List Char) : ∀ (k pos : Nat) (fs : FS) (st : PState)
    (i : Nat) (g : Bool) (fuel : Nat),
    st.fh = some ⟨i, pos, g⟩ → fs.contentOfIno i = some c →
    st.paranoid = false → st.every_n = 0 → st.full_lines = false →
    pos + k = c.length →
    readlines fuel fs st =
      (readlines (fuel - (pyLinesList (c.drop pos)).length) fs
        (drained st i g c.length (pyLinesList (c.drop pos)).length)).map
        (fun r => (pyLinesList (c.drop pos) ++ r.1, r.2.1, r.2.2)) := by
  intro k
  induction k using Nat.strong_induction_on with
  | _ k ih =>
    intro pos fs st i g fuel hfh hc hpar hn hfl hlen
    by_cases hk : k = 0
    · subst hk
      have hpos : pos = c.length := by omega
      subst hpos
      rw [List.drop_length]
      have h0 : pyLinesList ([] : List Char) = [] := rfl
      rw [h0]
      simp only [List.length_nil, Nat.sub_zero, List.nil_append]
      rw [drained_zero st i g c.length hfh]
      cases hr : readlines fuel fs st with
      | none => rfl
      | some r => rfl
    · have hpos : pos < c.length := by omega
      have hdne : c.drop pos ≠ [] := by
        intro h0
        rw [List.drop_eq_nil_iff] at h0
        omega
      have hlenL : 0 < (takeLine (c.drop pos)).length := by
        cases hd : c.drop pos with
        | nil => exact absurd hd hdne
        | cons d rest => exact takeLine_length_pos d rest
      have hleL : (takeLine (c.drop pos)).length ≤ c.length - pos := by
        have h1 := takeLine_length_le (c.drop pos)
        simpa using h1
      have hcomm : (takeLine (c.drop pos)).length + pos
          = pos + (takeLine (c.drop pos)).length := Nat.add_comm _ _
      have hpeel : pyLinesList (c.drop pos)
          = takeLine (c.drop pos)
            :: pyLinesList (c.drop (pos + (takeLine (c.drop pos)).length)) := by
        cases hd : c.drop pos with
        | nil => exact absurd hd hdne
        | cons d rest =>
          rw [pyLinesList_cons d rest]
          congr 1
          rw [← hd, List.drop_drop]
      cases fuel with
      | zero =>
        rw [readlines_zero, Nat.zero_sub, readlines_zero]
        rfl
      | succ fuel' =>
        have hstep := step_yield fs st i pos g c hfh hc hpos hpar hn hfl
        have hm : k - (takeLine (c.drop pos)).length < k := by omega
        rw [readlines_succ]
        simp only [hstep]
        rw [ih (k - (takeLine (c.drop pos)).length) hm
          (pos + (takeLine (c.drop pos)).length) fs
          { st with fh := some ⟨i, pos + (takeLine (c.drop pos)).length, g⟩,
                    since_update := st.since_update + 1 }
          i g fuel' rfl hc hpar hn hfl (by omega)]
        rw [hpeel, drained_step]
        simp only [List.length_cons]
        have hfuel : fuel' + 1
            - ((pyLinesList (c.drop (pos + (takeLine (c.drop pos)).length))).length + 1)
            = fuel'
            - (pyLinesList (c.drop (pos + (takeLine (c.drop pos)).length))).length := by
          omega
        rw [hfuel]
        cases hr : readlines
            (fuel' - (pyLinesList (c.drop (pos + (takeLine (c.drop pos)).length))).length) fs
            (drained st i g c.length
              ((pyLinesList (c.drop (pos + (takeLine (c.drop pos)).length))).length + 1))
            with
        | none => rfl
        | some r => simp

/-! ### Yielded lines are never empty -/

theorem get_next_line_yield_ne_nil (fs : FS) (st : PState) (line : List Char)
    (st₁ : PState) (h : get_next_line fs st = some (some line, st₁)) :
    line ≠ [] := by
  unfold get_next_line at h
  cases hfh : filehandle fs st with
  | none => rw [hfh] at h; simp at h
  | some p =>
    rw [hfh] at h
    cases hco : fs.contentOfIno p.1.ino with
    | none =>
      simp only [hco] at h
      simp at h
    | some c =>
      simp only [hco] at h
      by_cases h1 : (p.2.full_lines
          && !((takeLine (c.drop p.1.pos)).getLast? == some '\n')) = true
      · rw [if_pos h1] at h; simp at h
      · rw [if_neg h1] at h
        by_cases h2 : takeLine (c.drop p.1.pos) = []
        · rw [if_pos h2] at h; simp at h
        · rw [if_neg h2] at h
          simp at h
          rw [← h.1]
          exact h2

/-- Whatever the commit decision, `after_yield` hands the read line
through as the call's result. -/
theorem after_yield_fst (fs : FS) (st : PState) (l : List Char)
    (r : Option (List Char)) (fs' : FS) (st' : PState)
    (h : after_yield fs st l = some (r, fs', st')) : r = some l := by
  unfold after_yield at h
  by_cases h1 : st.paranoid = true
  · simp only [h1, if_true] at h
    cases hu : update_offset_file fs st with
    | none => simp only [hu] at h; simp at h
    | some q =>
      simp only [hu] at h
      simp at h
      exact h.1.symm
  · simp only [h1, if_false] at h
    by_cases h2 : 0 < st.every_n ∧ st.every_n ≤ st.since_update
    · rw [if_pos h2] at h
      cases hu : update_offset_file fs st with
      | none => simp only [hu] at h; simp at h
      | some q =>
        simp only [hu] at h
        simp at h
        exact h.1.symm
    · rw [if_neg h2] at h
      simp at h
      exact h.1.symm

theorem next_yield_ne_nil (fs : FS) (st : PState) (line : List Char)
    (fs' : FS) (st' : PState) (h : next fs st = some (some line, fs', st')) :
    line ≠ [] := by
  unfold next at h
  rcases hgl : get_next_line fs st with _ | ⟨_ | l, st₁⟩
  · rw [hgl] at h; simp at h
  · -- StopIteration from the first read
    simp only [hgl] at h
    rcases hin : is_new_file fs st₁ with _ | ⟨b, st₂⟩
    · simp only [hin] at h; simp at h
    · simp only [hin] at h
      cases b with
      | false =>
        by_cases h3 : st₂.save_on_end = true
        · simp only [h3, if_true] at h
          rcases hu : update_offset_file fs st₂ with _ | ⟨fs₁, st₅⟩
          · simp only [hu] at h; simp at h
          · simp only [hu] at h; simp at h
        · simp only [h3, if_false] at h; simp at h
      | true =>
        simp only [retry_from_current] at h
        rcases hgl₂ : get_next_line fs
            { st₂ with rotated_logfile := none, fh := none, offset := 0 }
          with _ | ⟨_ | l, st₄⟩
        · rw [hgl₂] at h; simp at h
        · simp only [hgl₂] at h
          by_cases h3 : st₄.save_on_end = true
          · simp only [h3, if_true] at h
            rcases hu : update_offset_file fs st₄ with _ | ⟨fs₁, st₅⟩
            · simp only [hu] at h; simp at h
            · simp only [hu] at h; simp at h
          · simp only [h3, if_false] at h; simp at h
        · simp only [hgl₂] at h
          have hfst := after_yield_fst fs st₄ l _ fs' st' h
          have hl := get_next_line_yield_ne_nil fs _ l st₄ hgl₂
          have h4 : line = l := by injection hfst
          rw [h4]
          exact hl
  · -- direct yield
    simp only [hgl] at h
    have hfst := after_yield_fst fs st₁ l _ fs' st' h
    have hl := get_next_line_yield_ne_nil fs st l st₁ hgl
    have h4 : line = l := by injection hfst
    rw [h4]
    exact hl

theorem readlines_ne_nil (fuel : Nat) : ∀ (fs : FS) (st : PState)
    (ls : List (List Char)) (fs' : FS) (st' : PState),
    readlines fuel fs st = some (ls, fs', st') → ∀ l ∈ ls, l ≠ [] := by
  induction fuel with
  | zero =>
    intro fs st ls fs' st' h
    rw [readlines_zero] at h
    simp at h
  | succ fuel' ih =>
    intro fs st ls fs' st' h
    rw [readlines_succ] at h
    cases hn : next fs st with
    | none => rw [hn] at h; simp at h
    | some p =>
      rw [hn] at h
      match p, hn with
      | (none, fs₁, st₁), hn =>
        simp at h
        rw [h.1]
        simp
      | (some line, fs₁, st₁), hn =>
        cases hr : readlines fuel' fs₁ st₁ with
        | none => simp only [hr] at h; simp at h
        | some r =>
          simp only [hr] at h
          simp at h
          intro l hl
          rw [← h.1] at hl
          rcases List.mem_cons.mp hl with h1 | h2
          · rw [h1]
            exact next_yield_ne_nil fs st line fs₁ st₁ hn
          · exact ih fs₁ st₁ r.1 r.2.1 r.2.2 (by rw [hr]) l h2

/-! ### Claim C5 -/

/-- C5. Sidecar round-trip: for every previously-saved valid
PersistedPosition — sidecar content `"<inode>\n<offset>\n"` with two
newline-terminated non-negative base-10 integers, which is exactly what
`update_offset_file`/`write_offset_to_file` write for naturals `i`,
`o` — loading the sidecar parses back exactly `(i, o)`, and saving the
loaded value rewrites exactly the original content: `save(load())` is a
no-op on the file content. -/
theorem C5_sidecar_roundtrip (i o : Nat) :
    loadOffsetFileContent (renderPair (i : Int) (o : Int)) = some ((i : Int), (o : Int)) ∧
    saveAfterLoad (renderPair (i : Int) (o : Int)) = some (renderPair (i : Int) (o : Int)) := by
  refine ⟨load_render i o, ?_⟩
  unfold saveAfterLoad
  rw [load_render]
  rfl

/-! ### Claim C10 -/

/-- C10. `read()` returns `None` — never the empty string — when there
are no unread lines, and the in-order concatenation of the unread lines
otherwise (which is never the empty string, since yielded lines are
never empty). -/
theorem C10_read_none_or_concat (fuel : Nat) (fs : FS) (st : PState)
    (ls : List (List Char)) (fs' : FS) (st' : PState)
    (h : readlines fuel fs st = some (ls, fs', st')) :
    read fuel fs st = some ((if ls.isEmpty then none else some ls.flatten), fs', st') ∧
    (ls = [] → read fuel fs st = some (none, fs', st')) ∧
    (ls ≠ [] → read fuel fs st = some (some ls.flatten, fs', st') ∧ ls.flatten ≠ []) := by
  have h1 : read fuel fs st
      = some (if ls.isEmpty then none else some ls.flatten, fs', st') := by
    unfold read
    rw [h]
    rfl
  refine ⟨h1, ?_, ?_⟩
  · intro he
    subst he
    simpa using h1
  · intro hne
    have hisE : ls.isEmpty = false := by
      cases ls with
      | nil => exact absurd rfl hne
      | cons a b => rfl
    refine ⟨by rw [h1]; simp [hisE], ?_⟩
    have hmem := readlines_ne_nil fuel fs st ls fs' st' h
    cases ls with
    | nil => exact absurd rfl hne
    | cons l rest =>
      have hl : l ≠ [] := hmem l (by simp)
      intro habs
      rw [show (l :: rest).flatten = l ++ rest.flatten from rfl] at habs
      exact hl (List.append_eq_nil.mp habs).1

/-- The one-file scenario behind the C10 witness. -/
def fsW : FS := ⟨[("app.log", ⟨1, ['x', '\n'], 0⟩)], []⟩

/-- Its expected state after a full pass. -/
def stW2 : PState :=
  { baseState (defaultArgs "app.log") with fh := some ⟨1, 2, false⟩, counter := 1 }

/-- The file system after a full pass over `fsW`: the sidecar holds
inode 1 / offset 2. -/
def fsW2 : FS :=
  ⟨[("app.log", ⟨1, ['x', '\n'], 0⟩), ("app.log.offset", ⟨2, renderPair 1 2, 0⟩)], []⟩

theorem C10_witness :
    readlines 3 fsW (baseState (defaultArgs "app.log")) = some ([['x', '\n']], fsW2, stW2) ∧
    read 3 fsW (baseState (defaultArgs "app.log")) = some (some ['x', '\n'], fsW2, stW2) ∧
    (['x', '\n'] : List Char) ≠ [] := by
  have h0 : readlines 3 fsW (baseState (defaultArgs "app.log"))
      = some ([['x', '\n']], fsW2, stW2) := by decide
  have h := C10_read_none_or_concat 3 fsW (baseState (defaultArgs "app.log"))
    [['x', '\n']] fsW2 stW2 h0
  exact ⟨h0, (h.2.2 (by decide)).1, by decide⟩

/-! ### Claim C3 (counterexample and amended statement) -/

/-- The file system after a mid-run rotation: `app.log` was renamed to
`app.log.1` (keeping inode 1, content `"a\nc\n"`) and a fresh
`app.log` (inode 2, `"b\n"`) created; the sidecar was last committed at
inode 1 / offset 2, so the rotated file still holds one un-committed
line `"c\n"` past the persisted offset. -/
def fsC3 : FS :=
  ⟨[("app.log", ⟨2, ['b', '\n'], 0⟩),
    ("app.log.1", ⟨1, ['a', '\n', 'c', '\n'], 0⟩),
    ("app.log.offset", ⟨3, renderPair 1 2, 0⟩)], []⟩

/-- The in-memory state of a tailer that opened `app.log` before the
rotation (handle on inode 1) and has read it to its end (position 4). -/
def stC3 : PState :=
  ⟨"app.log", "app.log.offset", false, 0, true, false, [], false, true,
   none, 1, 2, 2, some ⟨1, 4, false⟩, none, 1⟩

/-- The state after the next call: handle reopened on the new file
(inode 2), read from offset 0. -/
def stC3' : PState :=
  ⟨"app.log", "app.log.offset", false, 0, true, false, [], false, true,
   none, 1, 0, 3, some ⟨2, 2, false⟩, none, 2⟩

/-- C3 counterexample. In `READING_CURRENT`, when the read returns
`NoMoreData` and rotation is detected (handle at end-of-file, inode of
the path changed), the claim says the Tailer runs the RotationLocator
and reopens the validated rotated candidate (`app.log.1`, which exists
and matches the persisted inode) at the previously-persisted offset 2,
so the retried read would yield its line `"c\n"`. The code instead
reopens the monitored path at offset 0 and yields the new file's line
`"b\n"`: the locator is never consulted mid-run. -/
theorem C3_counterexample :
    next fsC3 stC3 = some (some ['b', '\n'], fsC3, stC3') ∧
    stC3'.fh = some ⟨2, 2, false⟩ ∧
    stC3'.rotated_logfile = none ∧
    fsC3.statPath "app.log.1" = some ⟨1, ['a', '\n', 'c', '\n'], 0⟩ ∧
    (fsC3.statPath "app.log.1").map (fun f => f.ino) =
      some (stC3.offset_file_inode).toNat ∧
    takeLine (['a', '\n', 'c', '\n'].drop 2) = ['c', '\n'] ∧
    (['b', '\n'] : List Char) ≠ ['c', '\n'] := by decide

/-- C3 (amended). `nextLine()` in `READING_CURRENT` receiving
`NoMoreData`: the Tailer re-checks identity against disk (handle at
end-of-file, handle inode vs. the monitored path's inode). If they
differ it does **not** run the RotationLocator: it closes the handle and
retries the read once from the monitored path at offset 0 (the
`retry_from_current` branch, which opens the monitored path — the
rotated file and the persisted offset play no role). If no rotation is
detected it persists the offset (unless save-on-end is disabled) and
returns `EXHAUSTED`. -/
theorem C3_amended (fs : FS) (st : PState) (i : Nat) (g : Bool)
    (c : List Char) (f : File)
    (hfh : st.fh = some ⟨i, c.length, g⟩) (hc : fs.contentOfIno i = some c)
    (hrot : st.rotated_logfile = none)
    (hf : fs.statPath st.filename = some f) :
    (f.ino ≠ i → next fs st = retry_from_current fs st) ∧
    (f.ino ≠ i → st.read_from_end = false →
      filehandle fs { st with rotated_logfile := none, fh := none, offset := 0 } =
        some (⟨f.ino, 0, isGzipName st.filename⟩,
          { st with rotated_logfile := none,
                    fh := some ⟨f.ino, 0, isGzipName st.filename⟩,
                    offset := 0, counter := st.counter + 1 })) ∧
    (f.ino = i → st.save_on_end = true →
      next fs st = some (none,
        fs.writeFile st.offset_file (renderPair (i : Int) (c.length : Int)),
        { st with since_update := 0 })) ∧
    (f.ino = i → st.save_on_end = false → next fs st = some (none, fs, st)) := by
  refine ⟨?_, ?_, ?_, ?_⟩
  · intro hne
    have hinf : is_new_file fs st = some (true, st) := by
      unfold is_new_file
      rw [hrot, filehandle_open fs st _ hfh]
      show (match fs.contentOfIno i with
        | none => none
        | some c => _) = _
      rw [hc]
      show (match fs.statPath st.filename with
        | none => none
        | some f => _) = _
      rw [hf]
      simp
      omega
    unfold next
    rw [get_next_line_eof fs st i g c hfh hc]
    simp only [hinf]
  · intro _ hre
    unfold filehandle
    show (match fs.statPath st.filename with
      | none => none
      | some f => _) = _
    rw [hf]
    unfold openedHandle
    simp [hre]
  · intro hino hsave
    exact stop_save fs st i g c f hfh hc hrot hf hino hsave
  · intro hino hsave
    exact stop_nosave fs st i g c f hfh hc hrot hf hino hsave

theorem C3_amended_witness :
    next fsC3 stC3 = retry_from_current fsC3 stC3 ∧
    filehandle fsC3 { stC3 with rotated_logfile := none, fh := none, offset := 0 } =
      some (⟨2, 0, false⟩,
        { stC3 with rotated_logfile := none, fh := some ⟨2, 0, false⟩,
                    offset := 0, counter := 2 }) := by
  have h := C3_amended fsC3 stC3 1 false ['a', '\n', 'c', '\n'] ⟨2, ['b', '\n'], 0⟩
    (by decide) (by decide) (by decide) (by decide)
  exact ⟨h.1 (by decide), h.2.1 (by decide) (by decide)⟩

/-! ### Claim C4 -/

/-- A monitored file `d/app.log` whose rotated predecessor sits only in
the configured override directory `old` (relative to `d`), which exists
as a directory. The sidecar points at the rotated file's inode 1. -/
def fsC4 : FS :=
  ⟨[("d/app.log", ⟨2, ['x', '\n'], 0⟩),
    ("d/old/app.log.1", ⟨1, ['p', '\n'], 0⟩),
    ("d/app.log.offset", ⟨3, renderPair 1 5, 0⟩)], ["d", "d/old"]⟩

/-- Construction arguments with the `olddir` override configured. -/
def argsC4 : Args := { defaultArgs "d/app.log" with olddir := some "old" }

/-- The file system after construction: since no rotated candidate was
found, the tailer reset and rewrote the sidecar to inode 2 / offset 0. -/
def fsC4' : FS :=
  ⟨[("d/app.log", ⟨2, ['x', '\n'], 0⟩),
    ("d/old/app.log.1", ⟨1, ['p', '\n'], 0⟩),
    ("d/app.log.offset", ⟨3, renderPair 2 0, 0⟩)], ["d", "d/old"]⟩

/-- The state after construction. -/
def stC4' : PState :=
  { baseState argsC4 with offset_file_inode := 1, offset := 0,
                          fh := some ⟨2, 0, false⟩, counter := 1 }

/-- C4. The class docstring documents `olddir` as "a directory
containing the rotated logfiles", and `_check_rotated_filename_candidates`
contains the full override logic — but `__init__` assigns
`self.olddir = None`, discarding the argument. Hence at the failing
input the candidate search runs in the monitored file's own directory
`d` and finds nothing (the tailer resets), even though the very same
search logic, given the discarded override, finds
`d/old/app.log.1`. -/
theorem C4_olddir_discarded :
    (∀ a : Args, (baseState a).olddir = none) ∧
    argsC4.olddir = some "old" ∧
    init fsC4 argsC4 = some (fsC4', stC4') ∧
    stC4'.olddir = none ∧
    stC4'.rotated_logfile = none ∧
    check_rotated_filename_candidates fsC4 { stC4' with olddir := argsC4.olddir } =
      some "d/old/app.log.1" := by
  refine ⟨fun a => rfl, by decide, by decide, by decide, by decide, by decide⟩

/-! ### Claim C9 -/

/-- A rotation whose rotated file was compressed with an uppercase
extension: `app.log.1.GZ` (inode 1, matching the sidecar). -/
def fsC9 : FS :=
  ⟨[("app.log", ⟨2, ['x', '\n'], 0⟩),
    ("app.log.1.GZ", ⟨1, ['p', '\n'], 0⟩),
    ("app.log.offset", ⟨3, renderPair 1 1, 0⟩)], []⟩

/-- The state after construction on `fsC9`: the locator validated
`app.log.1.GZ` as the rotated file. -/
def stC9' : PState :=
  { baseState (defaultArgs "app.log") with
      offset_file_inode := 1, offset := 1, rotated_logfile := some "app.log.1.GZ" }

/-- C9. The locator's glob `.1.[Gg][Zz]` deliberately matches the
uppercase variant `app.log.1.GZ` and validates it as the rotated file,
but `_filehandle` decides decompression with the case-sensitive
`filename.endswith('.gz')`, which is false for `.GZ` — so the selected
candidate is opened as plain text (handle's gzip flag false), not
decompressed as the spec promises for case-insensitively matched
compressed candidates. -/
theorem C9_uppercase_gz_not_decompressed :
    globMatchStr "app.log.1.[Gg][Zz]" "app.log.1.GZ" = true ∧
    init fsC9 (defaultArgs "app.log") = some (fsC9, stC9') ∧
    stC9'.rotated_logfile = some "app.log.1.GZ" ∧
    isGzipName "app.log.1.GZ" = false ∧
    isGzipName "app.log.1.gz" = true ∧
    filehandle fsC9 stC9' =
      some (⟨1, 1, false⟩, { stC9' with fh := some ⟨1, 1, false⟩, counter := 1 }) := by
  decide

/-! ### Claim C8 (counterexample and amended statement) -/

/-- A monitored file of size 2 with an existing but *empty* sidecar. -/
def fsC8 : FS :=
  ⟨[("app.log", ⟨1, ['x', 'y'], 0⟩), ("app.log.offset", ⟨2, [], 0⟩)], []⟩

/-- Construction arguments with start-at-end configured. -/
def argsC8 : Args := { defaultArgs "app.log" with read_from_end := true }

/-- C8 counterexample. With start-at-end configured and the sidecar
present but empty (a fresh run with no persisted position, in the
claim's words), the claim requires the stream to be positioned at
end-of-file (2); but `_filehandle` tests only `not exists(offset_file)`,
the empty sidecar exists, and the stream is positioned at the stored
offset 0 instead. -/
theorem C8_counterexample :
    init fsC8 argsC8 = some (fsC8, baseState argsC8) ∧
    (baseState argsC8).read_from_end = true ∧
    fsC8.pathExists "app.log.offset" = true ∧
    fsC8.getsize "app.log.offset" = 0 ∧
    filehandle fsC8 (baseState argsC8) =
      some (⟨1, 0, false⟩,
        { baseState argsC8 with fh := some ⟨1, 0, false⟩, counter := 1 }) ∧
    fsC8.getsize "app.log" = 2 ∧
    (0 : Nat) ≠ 2 := by decide

/-- C8 (amended). Every (re)open of the line source positions the
stream at the stored start offset, *except* when start-at-end is
configured and the sidecar file does not exist — absence only, not
emptiness — in which case it is positioned at the current end of
file. -/
theorem C8_amended (fs : FS) (st : PState) (f : File)
    (hfh : st.fh = none)
    (hstat : fs.statPath (st.rotated_logfile.getD st.filename) = some f) :
    filehandle fs st = some (openedHandle fs st f,
      { st with fh := some (openedHandle fs st f), counter := st.counter + 1 }) ∧
    (st.read_from_end = true → fs.pathExists st.offset_file = false →
      (openedHandle fs st f).pos = f.content.length) ∧
    (fs.pathExists st.offset_file = true → (openedHandle fs st f).pos = st.offset) ∧
    (st.read_from_end = false → (openedHandle fs st f).pos = st.offset) := by
  refine ⟨?_, ?_, ?_, ?_⟩
  · unfold filehandle
    rw [hfh]
    show (match fs.statPath (st.rotated_logfile.getD st.filename) with
      | none => none
      | some f => _) = _
    rw [hstat]
  · intro h1 h2
    unfold openedHandle
    simp [h1, h2]
  · intro h1
    unfold openedHandle
    simp [h1]
  · intro h1
    unfold openedHandle
    simp [h1]

/-! ### Construction lemmas -/

theorem init_no_offsetfile (fs : FS) (a : Args)
    (h : fs.pathExists (baseState a).offset_file = false) :
    init fs a = some (fs, baseState a) := by
  simp only [init, h]
  simp

theorem init_sidecar_match (fs : FS) (a : Args) (i o : Nat) (fo f : File)
    (hfo : fs.statPath (baseState a).offset_file = some fo)
    (hcont : fo.content = renderPair (i : Int) (o : Int))
    (hf : fs.statPath a.filename = some f)
    (hino : (f.ino : Int) = (i : Int)) (hsize : o ≤ f.content.length) :
    init fs a = some (fs,
      { baseState a with offset_file_inode := (i : Int), offset := o }) := by
  have hpe : fs.pathExists (baseState a).offset_file = true := by
    unfold FS.pathExists
    rw [hfo]
    rfl
  have hgs : fs.getsize (baseState a).offset_file = fo.content.length := by
    unfold FS.getsize
    rw [hfo]
    rfl
  have hdec : decide (0 < fs.getsize (baseState a).offset_file) = true := by
    rw [hgs, hcont]
    exact decide_eq_true (renderPair_length_pos _ _)
  simp only [init, hpe, hdec, Bool.and_self, if_true, hfo, hcont, load_render]
  rw [if_neg (Int.not_lt.mpr (Int.natCast_nonneg o))]
  simp only [hf, Int.toNat_natCast]
  rw [if_neg ?hneg]
  case hneg =>
    push_neg
    exact ⟨hino.symm, hsize⟩

theorem init_sidecar_rotated (fs : FS) (a : Args) (i o : Nat) (fo f : File)
    (rf : String)
    (hfo : fs.statPath (baseState a).offset_file = some fo)
    (hcont : fo.content = renderPair (i : Int) (o : Int))
    (hf : fs.statPath a.filename = some f)
    (hmis : (i : Int) ≠ (f.ino : Int) ∨ f.content.length < o)
    (hrot : determine_rotated_logfile fs
      { baseState a with offset_file_inode := (i : Int), offset := o } = some rf) :
    init fs a = some (fs,
      { baseState a with offset_file_inode := (i : Int), offset := o,
                         rotated_logfile := some rf }) := by
  have hpe : fs.pathExists (baseState a).offset_file = true := by
    unfold FS.pathExists
    rw [hfo]
    rfl
  have hgs : fs.getsize (baseState a).offset_file = fo.content.length := by
    unfold FS.getsize
    rw [hfo]
    rfl
  have hdec : decide (0 < fs.getsize (baseState a).offset_file) = true := by
    rw [hgs, hcont]
    exact decide_eq_true (renderPair_length_pos _ _)
  simp only [init, hpe, hdec, Bool.and_self, if_true, hfo, hcont, load_render]
  rw [if_neg (Int.not_lt.mpr (Int.natCast_nonneg o))]
  simp only [hf, Int.toNat_natCast]
  rw [if_pos hmis]
  simp only [hrot]
  simp

/-! ### Rotation-transition lemmas -/

theorem get_next_line_congr (fs : FS) (st : PState) (h : Handle) (st₁ : PState)
    (heq : filehandle fs st = some (h, st₁)) :
    get_next_line fs st = get_next_line fs st₁ := by
  have h₁ : filehandle fs st₁ = some (h, st₁) :=
    filehandle_open fs st₁ h (filehandle_fh fs st h st₁ heq)
  unfold get_next_line
  rw [heq, h₁]

/-- `next` on a drained rotated file: `_is_new_file` is true because
`rotated_logfile` is set, so the call falls through to the
reset-and-retry branch. -/
theorem next_rotated_eof (fs : FS) (st : PState) (i : Nat) (g : Bool)
    (c : List Char) (rp : String)
    (hfh : st.fh = some ⟨i, c.length, g⟩) (hc : fs.contentOfIno i = some c)
    (hrot : st.rotated_logfile = some rp) :
    next fs st = retry_from_current fs st := by
  have hinf : is_new_file fs st = some (true, st) := by
    unfold is_new_file
    rw [hrot]
  unfold next
  rw [get_next_line_eof fs st i g c hfh hc]
  simp only [hinf]

/-- When the retried read yields a line, the reset-and-retry branch
behaves exactly like a fresh `next` on the reopened state. -/
theorem retry_eq_next_of_yield (fs : FS) (st : PState) (h : Handle)
    (st₁ : PState) (l : List Char) (st₄ : PState)
    (hfh : filehandle fs { st with rotated_logfile := none, fh := none, offset := 0 }
      = some (h, st₁))
    (hgl : get_next_line fs st₁ = some (some l, st₄)) :
    retry_from_current fs st = next fs st₁ := by
  have hc := get_next_line_congr fs _ h st₁ hfh
  unfold retry_from_current next
  rw [hc, hgl]

/-! ### Claim C1 -/

/-- The file system right after a rotation detected at construction
time: the monitored path `app.log` holds a fresh file (inode 2, content
`newC`), the rotated predecessor `app.log.1` keeps inode 1 with the full
old content `oldC`, and the sidecar was last saved at inode 1 /
offset `off`. -/
def fsC1 (oldC newC : List Char) (off : Nat) : FS :=
  ⟨[("app.log", ⟨2, newC, 0⟩),
    ("app.log.1", ⟨1, oldC, 0⟩),
    ("app.log.offset", ⟨3, renderPair ((1 : Nat) : Int) ((off : Nat) : Int), 0⟩)], []⟩

/-- The state `__init__` builds on `fsC1`: persisted position loaded,
rotation detected and located. -/
def stC1 (off : Nat) : PState :=
  { baseState (defaultArgs "app.log") with
      offset_file_inode := ((1 : Nat) : Int), offset := off,
      rotated_logfile := some "app.log.1" }

/-- `stC1` with the rotated file opened at the persisted offset. -/
def stC1o (off : Nat) : PState :=
  { stC1 off with fh := some ⟨1, off, false⟩, counter := 1 }

/-- The state at the end of the rotated file's drain. -/
def stC1d (oldC : List Char) (off : Nat) : PState :=
  drained (stC1o off) 1 false oldC.length (pyLinesList (oldC.drop off)).length

/-- The state after the reset in `next`'s retry branch. -/
def stC1r (oldC : List Char) (off : Nat) : PState :=
  { stC1d oldC off with rotated_logfile := none, fh := none, offset := 0 }

/-- The state with the fresh monitored file opened at offset 0. -/
def stC1n (oldC : List Char) (off : Nat) : PState :=
  { stC1r oldC off with fh := some ⟨2, 0, false⟩,
                        counter := (stC1r oldC off).counter + 1 }

/-- C1. Rotation continuity: with a persisted offset `off` strictly
below the rotated predecessor's size, construction on `fsC1` locates
`app.log.1` as the rotated file, and the ensuing reads yield every
remaining line of the rotated file (its lines from `off` on) strictly
before every line of the fresh monitored file. -/
theorem C1_rotation_continuity (oldC newC : List Char) (off fuel : Nat)
    (hoff : off < oldC.length)
    (hfuel : (pyLinesList (oldC.drop off)).length + (pyLinesList newC).length + 2 ≤ fuel) :
    init (fsC1 oldC newC off) (defaultArgs "app.log")
      = some (fsC1 oldC newC off, stC1 off) ∧
    (stC1 off).rotated_logfile = some "app.log.1" ∧
    (stC1 off).offset = off ∧
    ∃ fs' st', readlines fuel (fsC1 oldC newC off) (stC1 off)
      = some (pyLinesList (oldC.drop off) ++ pyLinesList newC, fs', st') := by
  refine ⟨?_, rfl, rfl, ?_⟩
  · exact init_sidecar_rotated (fsC1 oldC newC off) (defaultArgs "app.log") 1 off
      ⟨3, renderPair ((1 : Nat) : Int) ((off : Nat) : Int), 0⟩ ⟨2, newC, 0⟩ "app.log.1"
      rfl rfl rfl (Or.inl (by simp)) rfl
  · obtain ⟨n, rfl⟩ : ∃ n, fuel = n + 1 := ⟨fuel - 1, by omega⟩
    have hfh1 : filehandle (fsC1 oldC newC off) (stC1 off)
        = some (⟨1, off, false⟩, stC1o off) := rfl
    have hcongr1 := next_congr (fsC1 oldC newC off) (stC1 off) ⟨1, off, false⟩
      (stC1o off) hfh1
    have hd1 := drain oldC (oldC.length - off) off (fsC1 oldC newC off) (stC1o off)
      1 false (n + 1) rfl rfl rfl rfl rfl (by omega)
    obtain ⟨m, hm⟩ : ∃ m, (n + 1) - (pyLinesList (oldC.drop off)).length = m + 1 :=
      ⟨(n + 1) - (pyLinesList (oldC.drop off)).length - 1, by omega⟩
    have htr : next (fsC1 oldC newC off) (stC1d oldC off)
        = retry_from_current (fsC1 oldC newC off) (stC1d oldC off) :=
      next_rotated_eof (fsC1 oldC newC off) (stC1d oldC off) 1 false oldC "app.log.1"
        rfl rfl rfl
    cases newC with
    | nil =>
      obtain ⟨fsX, stX, hretry⟩ : ∃ fsX stX,
          retry_from_current (fsC1 oldC [] off) (stC1d oldC off)
            = some (none, fsX, stX) := ⟨_, _, rfl⟩
      have hbig : readlines (n + 1) (fsC1 oldC [] off) (stC1 off)
          = some (pyLinesList (oldC.drop off) ++ pyLinesList ([] : List Char),
              fsX, stX) := by
        rw [readlines_succ, hcongr1, ← readlines_succ, hd1]
        rw [show drained (stC1o off) 1 false oldC.length
            (pyLinesList (oldC.drop off)).length = stC1d oldC off from rfl]
        rw [hm, readlines_succ, htr, hretry]
        rfl
      exact ⟨fsX, stX, hbig⟩
    | cons d rest =>
      have hopen : filehandle (fsC1 oldC (d :: rest) off)
          { stC1d oldC off with rotated_logfile := none, fh := none, offset := 0 }
          = some (⟨2, 0, false⟩, stC1n oldC off) := rfl
      have hyield := get_next_line_yield (fsC1 oldC (d :: rest) off) (stC1n oldC off)
        2 0 false (d :: rest) rfl rfl (by simp) rfl
      have htr2 : retry_from_current (fsC1 oldC (d :: rest) off) (stC1d oldC off)
          = next (fsC1 oldC (d :: rest) off) (stC1n oldC off) :=
        retry_eq_next_of_yield (fsC1 oldC (d :: rest) off) (stC1d oldC off)
          ⟨2, 0, false⟩ (stC1n oldC off) _ _ hopen hyield
      have hd2 := drain (d :: rest) (d :: rest).length 0 (fsC1 oldC (d :: rest) off)
        (stC1n oldC off) 2 false (m + 1) rfl rfl rfl rfl rfl (by omega)
      rw [List.drop_zero] at hd2
      obtain ⟨p, hp⟩ : ∃ p, (m + 1) - (pyLinesList (d :: rest)).length = p + 1 :=
        ⟨(m + 1) - (pyLinesList (d :: rest)).length - 1, by omega⟩
      have hstop := stop_save (fsC1 oldC (d :: rest) off)
        (drained (stC1n oldC off) 2 false (d :: rest).length
          (pyLinesList (d :: rest)).length)
        2 false (d :: rest) ⟨2, d :: rest, 0⟩ rfl rfl rfl rfl rfl rfl
      obtain ⟨fsX, stX, hstop2⟩ : ∃ fsX stX,
          next (fsC1 oldC (d :: rest) off)
            (drained (stC1n oldC off) 2 false (d :: rest).length
              (pyLinesList (d :: rest)).length) = some (none, fsX, stX) :=
        ⟨_, _, hstop⟩
      have hbig : readlines (n + 1) (fsC1 oldC (d :: rest) off) (stC1 off)
          = some (pyLinesList (oldC.drop off) ++ pyLinesList (d :: rest),
              fsX, stX) := by
        rw [readlines_succ, hcongr1, ← readlines_succ, hd1]
        rw [show drained (stC1o off) 1 false oldC.length
            (pyLinesList (oldC.drop off)).length = stC1d oldC off from rfl]
        rw [hm, readlines_succ, htr, htr2, ← readlines_succ, hd2, hp,
          readlines_succ, hstop2]
        simp only [Option.map_some', List.append_nil]
      exact ⟨fsX, stX, hbig⟩

theorem C1_witness :
    ∃ fs' st', readlines 13
        (fsC1 ("123456789\n123456789\n123456789\n123456789\n123456789\n"
            ++ "123456789\n123456789\n123456789\n123456789\n123456789\n").data
          "new1\nnew2\n".data 80)
        (stC1 80)
      = some (pyLinesList ((("123456789\n123456789\n123456789\n123456789\n123456789\n"
            ++ "123456789\n123456789\n123456789\n123456789\n123456789\n").data).drop 80)
          ++ pyLinesList "new1\nnew2\n".data, fs', st') :=
  (C1_rotation_continuity
    ("123456789\n123456789\n123456789\n123456789\n123456789\n"
        ++ "123456789\n123456789\n123456789\n123456789\n123456789\n").data
    "new1\nnew2\n".data 80 13 (by decide) (by decide)).2.2.2

/-! ### Claim C2 -/

/-- A file system holding only the monitored file `app.log` with
arbitrary content `c` (inode 1) and no sidecar yet. -/
def fsC2 (c : List Char) : FS := ⟨[("app.log", ⟨1, c, 0⟩)], []⟩

/-- The file system after one complete pass: the sidecar records
inode 1 / offset `c.length`. -/
def fsC2b (c : List Char) : FS :=
  ⟨[("app.log", ⟨1, c, 0⟩),
    ("app.log.offset", ⟨2, renderPair ((1 : Nat) : Int) ((c.length : Nat) : Int), 0⟩)],
   []⟩

/-- C2. Idempotence of full reads: for every file content `c`, a first
complete pass (iterating to `StopIteration` with commit-on-end enabled,
default configuration) yields exactly the lines of `c` and commits
inode 1 / offset `c.length`; reconstructing the tailer from that
sidecar and running a second complete pass over the unchanged file
yields zero lines. -/
theorem C2_idempotent_full_reads (c : List Char) (fuel₁ fuel₂ : Nat)
    (h₁ : (pyLinesList c).length + 1 ≤ fuel₁) (h₂ : 1 ≤ fuel₂) :
    init (fsC2 c) (defaultArgs "app.log")
      = some (fsC2 c, baseState (defaultArgs "app.log")) ∧
    (∃ st₁, readlines fuel₁ (fsC2 c) (baseState (defaultArgs "app.log"))
      = some (pyLinesList c, fsC2b c, st₁)) ∧
    (∃ st₂, init (fsC2b c) (defaultArgs "app.log") = some (fsC2b c, st₂) ∧
      ∃ fs₃ st₃, readlines fuel₂ (fsC2b c) st₂ = some ([], fs₃, st₃)) := by
  have hinit1 : init (fsC2 c) (defaultArgs "app.log")
      = some (fsC2 c, baseState (defaultArgs "app.log")) :=
    init_no_offsetfile _ _ rfl
  refine ⟨hinit1, ?_, ?_⟩
  · -- first pass
    obtain ⟨n, rfl⟩ : ∃ n, fuel₁ = n + 1 := ⟨fuel₁ - 1, by omega⟩
    have hfh : filehandle (fsC2 c) (baseState (defaultArgs "app.log"))
        = some (⟨1, 0, false⟩,
          { baseState (defaultArgs "app.log") with
              fh := some ⟨1, 0, false⟩, counter := 1 }) := rfl
    have hcongr := next_congr (fsC2 c) (baseState (defaultArgs "app.log"))
      ⟨1, 0, false⟩ _ hfh
    have hd := drain c c.length 0 (fsC2 c)
      { baseState (defaultArgs "app.log") with fh := some ⟨1, 0, false⟩, counter := 1 }
      1 false (n + 1) rfl rfl rfl rfl rfl (by omega)
    rw [List.drop_zero] at hd
    obtain ⟨m, hm⟩ : ∃ m, (n + 1) - (pyLinesList c).length = m + 1 :=
      ⟨(n + 1) - (pyLinesList c).length - 1, by omega⟩
    have hstop := stop_save (fsC2 c)
      (drained
        { baseState (defaultArgs "app.log") with fh := some ⟨1, 0, false⟩, counter := 1 }
        1 false c.length (pyLinesList c).length)
      1 false c ⟨1, c, 0⟩ rfl rfl rfl rfl rfl rfl
    have hwrite : (fsC2 c).writeFile
        (drained
          { baseState (defaultArgs "app.log") with
              fh := some ⟨1, 0, false⟩, counter := 1 }
          1 false c.length (pyLinesList c).length).offset_file
        (renderPair ((1 : Nat) : Int) ((c.length : Nat) : Int)) = fsC2b c := rfl
    have hpass : readlines (n + 1) (fsC2 c) (baseState (defaultArgs "app.log"))
        = some (pyLinesList c, fsC2b c,
            { drained
                { baseState (defaultArgs "app.log") with
                    fh := some ⟨1, 0, false⟩, counter := 1 }
                1 false c.length (pyLinesList c).length with since_update := 0 }) := by
      rw [readlines_succ, hcongr, ← readlines_succ, hd, hm, readlines_succ, hstop]
      simp only [Option.map_some', List.append_nil]
      rw [hwrite]
    exact ⟨_, hpass⟩
  · -- second pass
    have hinit2 : init (fsC2b c) (defaultArgs "app.log") = some (fsC2b c,
        { baseState (defaultArgs "app.log") with
            offset_file_inode := ((1 : Nat) : Int), offset := c.length }) :=
      init_sidecar_match (fsC2b c) (defaultArgs "app.log") 1 c.length
        ⟨2, renderPair ((1 : Nat) : Int) ((c.length : Nat) : Int), 0⟩ ⟨1, c, 0⟩
        rfl rfl rfl rfl (le_refl _)
    refine ⟨_, hinit2, ?_⟩
    obtain ⟨m₂, rfl⟩ : ∃ m₂, fuel₂ = m₂ + 1 := ⟨fuel₂ - 1, by omega⟩
    have hfh2 : filehandle (fsC2b c)
        { baseState (defaultArgs "app.log") with
            offset_file_inode := ((1 : Nat) : Int), offset := c.length }
        = some (⟨1, c.length, false⟩,
          { baseState (defaultArgs "app.log") with
              offset_file_inode := ((1 : Nat) : Int), offset := c.length,
              fh := some ⟨1, c.length, false⟩, counter := 1 }) := rfl
    have hcongr2 := next_congr (fsC2b c)
      { baseState (defaultArgs "app.log") with
          offset_file_inode := ((1 : Nat) : Int), offset := c.length }
      ⟨1, c.length, false⟩ _ hfh2
    have hstop2 := stop_save (fsC2b c)
      { baseState (defaultArgs "app.log") with
          offset_file_inode := ((1 : Nat) : Int), offset := c.length,
          fh := some ⟨1, c.length, false⟩, counter := 1 }
      1 false c ⟨1, c, 0⟩ rfl rfl rfl rfl rfl rfl
    rw [readlines_succ, hcongr2, hstop2]
    exact ⟨_, _, rfl⟩

theorem C2_witness :
    init (fsC2 ['x', '\n']) (defaultArgs "app.log")
      = some (fsC2 ['x', '\n'], baseState (defaultArgs "app.log")) ∧
    (∃ st₁, readlines 3 (fsC2 ['x', '\n']) (baseState (defaultArgs "app.log"))
      = some (pyLinesList ['x', '\n'], fsC2b ['x', '\n'], st₁)) ∧
    (∃ st₂, init (fsC2b ['x', '\n']) (defaultArgs "app.log")
        = some (fsC2b ['x', '\n'], st₂) ∧
      ∃ fs₃ st₃, readlines 2 (fsC2b ['x', '\n']) st₂ = some ([], fs₃, st₃)) :=
  C2_idempotent_full_reads ['x', '\n'] 3 2 (by decide) (by decide)

/-! ### Claim C7 -/

/-- A monitored file holding only the partial line `"abc"` (a writer
mid-append). -/
def fsC7a : FS := ⟨[("app.log", ⟨1, ['a', 'b', 'c'], 0⟩)], []⟩

/-- Construction arguments with complete-lines-only configured. -/
def argsC7 : Args := { defaultArgs "app.log" with full_lines := true }

/-- After the first (empty) poll: the sidecar was committed at the
rewound position 0. -/
def fsC7b : FS :=
  ⟨[("app.log", ⟨1, ['a', 'b', 'c'], 0⟩),
    ("app.log.offset", ⟨2, ['1', '\n', '0', '\n'], 0⟩)], []⟩

/-- The state after the first poll: handle still at position 0. -/
def stC7b : PState :=
  { baseState argsC7 with fh := some ⟨1, 0, false⟩, counter := 1 }

/-- The file system after the writer completed the line: content now
`"abcdef\n"` (same inode). -/
def fsC7c : FS :=
  ⟨[("app.log", ⟨1, "abcdef\n".data, 0⟩),
    ("app.log.offset", ⟨2, ['1', '\n', '0', '\n'], 0⟩)], []⟩

/-- After the second poll: one full line consumed and committed. -/
def fsC7d : FS :=
  ⟨[("app.log", ⟨1, "abcdef\n".data, 0⟩),
    ("app.log.offset", ⟨2, ['1', '\n', '7', '\n'], 0⟩)], []⟩

/-- The state after the second poll. -/
def stC7d : PState :=
  { baseState argsC7 with fh := some ⟨1, 7, false⟩, counter := 1 }

/-- C7. Partial-line exclusion with position rewind: in general, with
complete-lines-only configured, a read whose bytes do not end in the
line terminator rewinds the position (the state is returned unchanged)
and reports `NoMoreData`; concretely, with content `"abc"` the first
poll yields no line and leaves the handle at position 0, and after the
writer appends `"def\n"` the next poll yields exactly the one line
`"abcdef\n"`. -/
theorem C7_partial_line_exclusion :
    (∀ (fs : FS) (st : PState) (i pos : Nat) (g : Bool) (c : List Char),
      st.full_lines = true → st.fh = some ⟨i, pos, g⟩ →
      fs.contentOfIno i = some c →
      (takeLine (c.drop pos)).getLast? ≠ some '\n' →
      get_next_line fs st = some (none, st)) ∧
    init fsC7a argsC7 = some (fsC7a, baseState argsC7) ∧
    next fsC7a (baseState argsC7) = some (none, fsC7b, stC7b) ∧
    stC7b.fh = some ⟨1, 0, false⟩ ∧
    readlines 3 fsC7c stC7b = some (["abcdef\n".data], fsC7d, stC7d) := by
  refine ⟨?_, by decide, by decide, by decide, by decide⟩
  intro fs st i pos g c hfl hfh hc hlast
  rw [get_next_line_eq fs st i pos g c hfh hc]
  have hb : (st.full_lines
      && !((takeLine (c.drop pos)).getLast? == some '\n')) = true := by
    rw [hfl]
    simp [hlast]
  rw [if_pos hb]
  rw [PState.eta_fh st _ hfh]

theorem C7_witness : get_next_line fsC7a stC7b = some (none, stC7b) :=
  C7_partial_line_exclusion.1 fsC7a stC7b 1 0 false ['a', 'b', 'c']
    (by decide) (by decide) (by decide) (by decide)

/-! ### Frame lemmas for the commit policy -/

/-- `_filehandle` changes only `fh` and `counter`. -/
theorem filehandle_keeps (fs : FS) (st : PState) (h : Handle) (st₁ : PState)
    (heq : filehandle fs st = some (h, st₁)) :
    st₁.paranoid = st.paranoid ∧ st₁.every_n = st.every_n ∧
    st₁.offset_file = st.offset_file ∧ st₁.save_on_end = st.save_on_end ∧
    st₁.since_update = st.since_update := by
  unfold filehandle at heq
  cases hfh : st.fh with
  | some h₀ =>
    rw [hfh] at heq
    simp at heq
    rw [← heq.2]
    exact ⟨rfl, rfl, rfl, rfl, rfl⟩
  | none =>
    rw [hfh] at heq
    cases hst : fs.statPath (st.rotated_logfile.getD st.filename) with
    | none => rw [hst] at heq; simp at heq
    | some f =>
      rw [hst] at heq
      simp at heq
      rw [← heq.2]
      exact ⟨rfl, rfl, rfl, rfl, rfl⟩

/-- A failed `_get_next_line` changes only `fh` and `counter`. -/
theorem get_next_line_stop_state (fs : FS) (st : PState) (st₁ : PState)
    (h : get_next_line fs st = some (none, st₁)) :
    st₁.paranoid = st.paranoid ∧ st₁.every_n = st.every_n ∧
    st₁.offset_file = st.offset_file ∧ st₁.save_on_end = st.save_on_end ∧
    st₁.since_update = st.since_update := by
  unfold get_next_line at h
  cases hfh : filehandle fs st with
  | none => rw [hfh] at h; simp at h
  | some p =>
    rw [hfh] at h
    have hk := filehandle_keeps fs st p.1 p.2 (by rw [hfh])
    cases hco : fs.contentOfIno p.1.ino with
    | none => simp only [hco] at h; simp at h
    | some c =>
      simp only [hco] at h
      by_cases h1 : (p.2.full_lines
          && !((takeLine (c.drop p.1.pos)).getLast? == some '\n')) = true
      · rw [if_pos h1] at h
        simp at h
        rw [← h]
        exact ⟨hk.1, hk.2.1, hk.2.2.1, hk.2.2.2.1, hk.2.2.2.2⟩
      · rw [if_neg h1] at h
        by_cases h2 : takeLine (c.drop p.1.pos) = []
        · rw [if_pos h2] at h
          simp at h
          rw [← h]
          exact ⟨hk.1, hk.2.1, hk.2.2.1, hk.2.2.2.1, hk.2.2.2.2⟩
        · rw [if_neg h2] at h
          simp at h

/-- A successful `_get_next_line` additionally bumps `since_update` by
one and leaves an open handle. -/
theorem get_next_line_yield_state (fs : FS) (st : PState) (l : List Char)
    (st₁ : PState) (h : get_next_line fs st = some (some l, st₁)) :
    st₁.paranoid = st.paranoid ∧ st₁.every_n = st.every_n ∧
    st₁.offset_file = st.offset_file ∧ st₁.save_on_end = st.save_on_end ∧
    st₁.since_update = st.since_update + 1 ∧ ∃ hh, st₁.fh = some hh := by
  unfold get_next_line at h
  cases hfh : filehandle fs st with
  | none => rw [hfh] at h; simp at h
  | some p =>
    rw [hfh] at h
    have hk := filehandle_keeps fs st p.1 p.2 (by rw [hfh])
    cases hco : fs.contentOfIno p.1.ino with
    | none => simp only [hco] at h; simp at h
    | some c =>
      simp only [hco] at h
      by_cases h1 : (p.2.full_lines
          && !((takeLine (c.drop p.1.pos)).getLast? == some '\n')) = true
      · rw [if_pos h1] at h; simp at h
      · rw [if_neg h1] at h
        by_cases h2 : takeLine (c.drop p.1.pos) = []
        · rw [if_pos h2] at h; simp at h
        · rw [if_neg h2] at h
          simp at h
          rw [← h.2]
          refine ⟨hk.1, hk.2.1, hk.2.2.1, hk.2.2.2.1, by rw [hk.2.2.2.2], ⟨_, rfl⟩⟩

/-- `_is_new_file` changes only `fh` and `counter`. -/
theorem is_new_file_keeps (fs : FS) (st : PState) (b : Bool) (st₂ : PState)
    (h : is_new_file fs st = some (b, st₂)) :
    st₂.paranoid = st.paranoid ∧ st₂.every_n = st.every_n ∧
    st₂.offset_file = st.offset_file ∧ st₂.save_on_end = st.save_on_end ∧
    st₂.since_update = st.since_update := by
  unfold is_new_file at h
  cases hrot : st.rotated_logfile with
  | some rp =>
    rw [hrot] at h
    simp at h
    rw [← h.2]
    exact ⟨rfl, rfl, rfl, rfl, rfl⟩
  | none =>
    rw [hrot] at h
    cases hfh : filehandle fs st with
    | none => rw [hfh] at h; simp at h
    | some p =>
      rw [hfh] at h
      have hk := filehandle_keeps fs st p.1 p.2 (by rw [hfh])
      cases hco : fs.contentOfIno p.1.ino with
      | none => simp only [hco] at h; simp at h
      | some c =>
        simp only [hco] at h
        cases hst : fs.statPath p.2.filename with
        | none => simp only [hst] at h; simp at h
        | some f =>
          simp only [hst] at h
          simp at h
          rw [← h.2]
          exact ⟨hk.1, hk.2.1, hk.2.2.1, hk.2.2.2.1, hk.2.2.2.2⟩

/-- `after_yield` when paranoid is set or the every-n threshold is
reached: the offset file is written from the handle's position and the
unsaved-line counter resets. -/
theorem after_yield_save (fs : FS) (st : PState) (l : List Char) (hd : Handle)
    (hfh : st.fh = some hd)
    (hcond : st.paranoid = true ∨ (0 < st.every_n ∧ st.every_n ≤ st.since_update)) :
    after_yield fs st l = some (some l,
      fs.writeFile st.offset_file (renderPair (hd.ino : Int) (hd.pos : Int)),
      { st with since_update := 0 }) := by
  unfold after_yield
  by_cases hp : st.paranoid = true
  · rw [if_pos hp, update_offset_file_open fs st hd hfh]
  · rw [if_neg hp]
    rcases hcond with hc | hc
    · exact absurd hc hp
    · rw [if_pos hc, update_offset_file_open fs st hd hfh]

/-- `after_yield` when neither commit trigger holds: nothing is
written. -/
theorem after_yield_nosave (fs : FS) (st : PState) (l : List Char)
    (hp : st.paranoid = false)
    (hev : st.every_n = 0 ∨ st.since_update < st.every_n) :
    after_yield fs st l = some (some l, fs, st) := by
  unfold after_yield
  rw [if_neg (by rw [hp]; simp)]
  have hc : ¬(0 < st.every_n ∧ st.every_n ≤ st.since_update) := by
    rintro ⟨h1, h2⟩
    rcases hev with h | h <;> omega
  rw [if_neg hc]

/-- Every yield of `next` factors through `after_yield` on an
intermediate state that keeps the commit configuration of the entry
state, has bumped `since_update` by exactly one, and holds an open
handle. -/
theorem next_yield_shape (fs : FS) (st : PState) (line : List Char)
    (fs' : FS) (st' : PState) (h : next fs st = some (some line, fs', st')) :
    ∃ stm : PState, stm.paranoid = st.paranoid ∧ stm.every_n = st.every_n ∧
      stm.offset_file = st.offset_file ∧
      stm.since_update = st.since_update + 1 ∧
      (∃ hh, stm.fh = some hh) ∧
      after_yield fs stm line = some (some line, fs', st') := by
  unfold next at h
  rcases hgl : get_next_line fs st with _ | ⟨_ | l, st₁⟩
  · rw [hgl] at h; simp at h
  · simp only [hgl] at h
    have hks := get_next_line_stop_state fs st st₁ hgl
    rcases hin : is_new_file fs st₁ with _ | ⟨_ | _, st₂⟩
    · simp only [hin] at h; simp at h
    · simp only [hin] at h
      by_cases hs : st₂.save_on_end = true
      · rw [if_pos hs] at h
        rcases hu : update_offset_file fs st₂ with _ | ⟨fs₁, st₅⟩
        · simp only [hu] at h; simp at h
        · simp only [hu] at h; simp at h
      · rw [if_neg hs] at h; simp at h
    · simp only [hin] at h
      have hki := is_new_file_keeps fs st₁ true st₂ hin
      unfold retry_from_current at h
      rcases hgl₂ : get_next_line fs
          { st₂ with rotated_logfile := none, fh := none, offset := 0 }
        with _ | ⟨_ | l₂, st₄⟩
      · rw [hgl₂] at h; simp at h
      · simp only [hgl₂] at h
        by_cases hs : st₄.save_on_end = true
        · rw [if_pos hs] at h
          rcases hu : update_offset_file fs st₄ with _ | ⟨fs₁, st₅⟩
          · simp only [hu] at h; simp at h
          · simp only [hu] at h; simp at h
        · rw [if_neg hs] at h; simp at h
      · simp only [hgl₂] at h
        have hk4 := get_next_line_yield_state fs _ l₂ st₄ hgl₂
        have hline : line = l₂ :=
          Option.some.inj (after_yield_fst fs st₄ l₂ (some line) fs' st' h)
        subst hline
        refine ⟨st₄, ?_, ?_, ?_, ?_, hk4.2.2.2.2.2, h⟩
        · exact hk4.1.trans (hki.1.trans hks.1)
        · exact hk4.2.1.trans (hki.2.1.trans hks.2.1)
        · exact hk4.2.2.1.trans (hki.2.2.1.trans hks.2.2.1)
        · rw [hk4.2.2.2.2.1]
          show st₂.since_update + 1 = _
          rw [hki.2.2.2.2, hks.2.2.2.2]
  · simp only [hgl] at h
    have hk1 := get_next_line_yield_state fs st l st₁ hgl
    have hline : line = l :=
      Option.some.inj (after_yield_fst fs st₁ l (some line) fs' st' h)
    subst hline
    exact ⟨st₁, hk1.1, hk1.2.1, hk1.2.2.1, hk1.2.2.2.2.1, hk1.2.2.2.2.2, h⟩

/-! ### Claim C6 -/

/-- A monitored file holding one complete line `"x\n"`. -/
def fsC6 : FS := ⟨[("app.log", ⟨1, ['x', '\n'], 0⟩)], []⟩

/-- The file system after a commit at position 2: the sidecar holds
`"1\n2\n"`. -/
def fsC6w : FS :=
  ⟨[("app.log", ⟨1, ['x', '\n'], 0⟩),
    ("app.log.offset", ⟨2, ['1', '\n', '2', '\n'], 0⟩)], []⟩

/-- Fresh state with paranoid mode enabled. -/
def stC6p : PState := { baseState (defaultArgs "app.log") with paranoid := true }

/-- The paranoid state after yielding the line and committing. -/
def stC6wp : PState := { stC6p with fh := some ⟨1, 2, false⟩, counter := 1 }

/-- Fresh state with an every-1 commit interval. -/
def stC6e : PState := { baseState (defaultArgs "app.log") with every_n := 1 }

/-- The every-1 state after yielding the line and committing. -/
def stC6we : PState := { stC6e with fh := some ⟨1, 2, false⟩, counter := 1 }

/-- Fresh default state (no paranoid, no interval). -/
def stC6n : PState := baseState (defaultArgs "app.log")

/-- The default state after yielding the line without committing. -/
def stC6wn : PState :=
  { stC6n with fh := some ⟨1, 2, false⟩, since_update := 1, counter := 1 }

/-- A state whose handle already sits at the end of the file. -/
def stC6f : PState :=
  { baseState (defaultArgs "app.log") with fh := some ⟨1, 2, false⟩, counter := 1 }

/-- The same end-of-file state with save-on-end disabled. -/
def stC6f5 : PState := { stC6f with save_on_end := false }

/-- C6. Commit policy: (i) with paranoid mode enabled, every yield of
`next` writes the offset file from the handle's position and resets the
unsaved-line counter; (ii) likewise when an every-N interval is
configured and this yield is the Nth line since the last commit;
(iii) when neither trigger holds, a yield leaves the file system
untouched and just increments the unsaved-line counter; (iv) at
`EXHAUSTED` (end of data, no rotation pending) the offset is committed
when save-on-end is enabled, and (v) nothing is written when it is
disabled. -/
theorem C6_commit_policy :
    (∀ (fs : FS) (st : PState) (line : List Char) (fs' : FS) (st' : PState),
      next fs st = some (some line, fs', st') → st.paranoid = true →
      ∃ h : Handle, st'.fh = some h ∧
        fs' = fs.writeFile st.offset_file
          (renderPair (h.ino : Int) (h.pos : Int)) ∧
        st'.since_update = 0) ∧
    (∀ (fs : FS) (st : PState) (line : List Char) (fs' : FS) (st' : PState),
      next fs st = some (some line, fs', st') → st.paranoid = false →
      0 < st.every_n → st.every_n ≤ st.since_update + 1 →
      ∃ h : Handle, st'.fh = some h ∧
        fs' = fs.writeFile st.offset_file
          (renderPair (h.ino : Int) (h.pos : Int)) ∧
        st'.since_update = 0) ∧
    (∀ (fs : FS) (st : PState) (line : List Char) (fs' : FS) (st' : PState),
      next fs st = some (some line, fs', st') → st.paranoid = false →
      (st.every_n = 0 ∨ st.since_update + 1 < st.every_n) →
      fs' = fs ∧ st'.since_update = st.since_update + 1) ∧
    (∀ (fs : FS) (st : PState) (i : Nat) (g : Bool) (c : List Char) (f : File),
      st.fh = some ⟨i, c.length, g⟩ → fs.contentOfIno i = some c →
      st.rotated_logfile = none → fs.statPath st.filename = some f →
      f.ino = i → st.save_on_end = true →
      next fs st = some (none,
        fs.writeFile st.offset_file (renderPair (i : Int) (c.length : Int)),
        { st with since_update := 0 })) ∧
    (∀ (fs : FS) (st : PState) (i : Nat) (g : Bool) (c : List Char) (f : File),
      st.fh = some ⟨i, c.length, g⟩ → fs.contentOfIno i = some c →
      st.rotated_logfile = none → fs.statPath st.filename = some f →
      f.ino = i → st.save_on_end = false →
      next fs st = some (none, fs, st)) := by
  refine ⟨?_, ?_, ?_, ?_, ?_⟩
  · intro fs st line fs' st' h hp
    obtain ⟨stm, hp', hev', hof', hsu', ⟨hh, hfhm⟩, hay⟩ :=
      next_yield_shape fs st line fs' st' h
    rw [after_yield_save fs stm line hh hfhm (Or.inl (hp'.trans hp))] at hay
    injection hay with h2
    have hfs : fs.writeFile stm.offset_file
        (renderPair (hh.ino : Int) (hh.pos : Int)) = fs' :=
      congrArg (fun p : Option (List Char) × FS × PState => p.2.1) h2
    have hst : { stm with since_update := 0 } = st' :=
      congrArg (fun p : Option (List Char) × FS × PState => p.2.2) h2
    refine ⟨hh, ?_, ?_, ?_⟩
    · rw [← hst]
      exact hfhm
    · rw [← hfs, hof']
    · rw [← hst]
  · intro fs st line fs' st' h hp he1 he2
    obtain ⟨stm, hp', hev', hof', hsu', ⟨hh, hfhm⟩, hay⟩ :=
      next_yield_shape fs st line fs' st' h
    have hcnd : 0 < stm.every_n ∧ stm.every_n ≤ stm.since_update :=
      ⟨by rw [hev']; exact he1, by rw [hev', hsu']; exact he2⟩
    rw [after_yield_save fs stm line hh hfhm (Or.inr hcnd)] at hay
    injection hay with h2
    have hfs : fs.writeFile stm.offset_file
        (renderPair (hh.ino : Int) (hh.pos : Int)) = fs' :=
      congrArg (fun p : Option (List Char) × FS × PState => p.2.1) h2
    have hst : { stm with since_update := 0 } = st' :=
      congrArg (fun p : Option (List Char) × FS × PState => p.2.2) h2
    refine ⟨hh, ?_, ?_, ?_⟩
    · rw [← hst]
      exact hfhm
    · rw [← hfs, hof']
    · rw [← hst]
  · intro fs st line fs' st' h hp hev
    obtain ⟨stm, hp', hev', hof', hsu', ⟨hh, hfhm⟩, hay⟩ :=
      next_yield_shape fs st line fs' st' h
    have hcnd : stm.every_n = 0 ∨ stm.since_update < stm.every_n := by
      rw [hev', hsu']
      exact hev
    rw [after_yield_nosave fs stm line (hp'.trans hp) hcnd] at hay
    injection hay with h2
    have hfs : fs = fs' :=
      congrArg (fun p : Option (List Char) × FS × PState => p.2.1) h2
    have hst : stm = st' :=
      congrArg (fun p : Option (List Char) × FS × PState => p.2.2) h2
    refine ⟨hfs.symm, ?_⟩
    rw [← hst, hsu']
  · intro fs st i g c f hfh hc hrot hf hino hsave
    exact stop_save fs st i g c f hfh hc hrot hf hino hsave
  · intro fs st i g c f hfh hc hrot hf hino hsave
    exact stop_nosave fs st i g c f hfh hc hrot hf hino hsave

theorem C6_witness :
    (∃ h : Handle, stC6wp.fh = some h ∧
      fsC6w = fsC6.writeFile stC6p.offset_file
        (renderPair (h.ino : Int) (h.pos : Int)) ∧
      stC6wp.since_update = 0) ∧
    (∃ h : Handle, stC6we.fh = some h ∧
      fsC6w = fsC6.writeFile stC6e.offset_file
        (renderPair (h.ino : Int) (h.pos : Int)) ∧
      stC6we.since_update = 0) ∧
    (fsC6 = fsC6 ∧ stC6wn.since_update = stC6n.since_update + 1) ∧
    next fsC6 stC6f = some (none,
      fsC6.writeFile stC6f.offset_file (renderPair (1 : Int) (2 : Int)),
      { stC6f with since_update := 0 }) ∧
    next fsC6 stC6f5 = some (none, fsC6, stC6f5) :=
  ⟨C6_commit_policy.1 fsC6 stC6p ['x', '\n'] fsC6w stC6wp
      (by decide) (by decide),
   C6_commit_policy.2.1 fsC6 stC6e ['x', '\n'] fsC6w stC6we
      (by decide) (by decide) (by decide) (by decide),
   C6_commit_policy.2.2.1 fsC6 stC6n ['x', '\n'] fsC6 stC6wn
      (by decide) (by decide) (Or.inl (by decide)),
   C6_commit_policy.2.2.2.1 fsC6 stC6f 1 false ['x', '\n'] ⟨1, ['x', '\n'], 0⟩
      (by decide) (by decide) (by decide) (by decide) (by decide) (by decide),
   C6_commit_policy.2.2.2.2 fsC6 stC6f5 1 false ['x', '\n'] ⟨1, ['x', '\n'], 0⟩
      (by decide) (by decide) (by decide) (by decide) (by decide) (by decide)⟩

theorem C8_amended_witness :
    filehandle fsC8 (baseState argsC8) =
      some (openedHandle fsC8 (baseState argsC8) ⟨1, ['x', 'y'], 0⟩,
        { baseState argsC8 with
            fh := some (openedHandle fsC8 (baseState argsC8) ⟨1, ['x', 'y'], 0⟩),
            counter := 1 }) ∧
    (openedHandle fsC8 (baseState argsC8) ⟨1, ['x', 'y'], 0⟩).pos = 0 := by
  have h := C8_amended fsC8 (baseState argsC8) ⟨1, ['x', 'y'], 0⟩
    (by decide) (by decide)
  exact ⟨h.1, h.2.2.1 (by decide)⟩

end Spec2Proof
